import Mathlib

/-!
Verification of the `cast` ASCII ray tracer (src/main.rs).

Arithmetic model: Rust `f32` values are modelled by the type `F` below —
exact real numbers extended with the two IEEE infinities and NaN.  The
model follows IEEE-754 special-value semantics exactly (0 * inf = NaN,
0/0 = NaN, x/0 = ±inf, NaN-poisoning of comparisons, Rust's NaN-ignoring
`f32::min`/`f32::max`, `as usize` casting NaN and negatives to 0), but
idealises the finite values: no rounding, no overflow to infinity and no
negative zero (all finite-value arithmetic is exact real arithmetic, and
a finite zero behaves as IEEE +0.0).  All source functions are
transcribed over this model.
-/

open Classical

noncomputable section

namespace Cast

/-- Model of an `f32` value: an exact finite real, `+inf`, `-inf`, or NaN. -/
inductive F where
  | fin : ℝ → F
  | inf : F
  | ninf : F
  | nan : F

namespace F

/-- IEEE negation. -/
def neg : F → F
  | fin x => fin (-x)
  | inf => ninf
  | ninf => inf
  | nan => nan

/-- IEEE addition (exact on finite values). -/
def add : F → F → F
  | nan, _ => nan
  | _, nan => nan
  | inf, ninf => nan
  | ninf, inf => nan
  | inf, _ => inf
  | _, inf => inf
  | ninf, _ => ninf
  | _, ninf => ninf
  | fin a, fin b => fin (a + b)

/-- IEEE subtraction, `a - b = a + (-b)`. -/
def sub (a b : F) : F := add a (neg b)

/-- IEEE multiplication (exact on finite values; `0 * ±inf = NaN`). -/
def mul : F → F → F
  | nan, _ => nan
  | _, nan => nan
  | fin a, fin b => fin (a * b)
  | fin a, inf => if 0 < a then inf else if a < 0 then ninf else nan
  | inf, fin a => if 0 < a then inf else if a < 0 then ninf else nan
  | fin a, ninf => if 0 < a then ninf else if a < 0 then inf else nan
  | ninf, fin a => if 0 < a then ninf else if a < 0 then inf else nan
  | inf, inf => inf
  | inf, ninf => ninf
  | ninf, inf => ninf
  | ninf, ninf => inf

/-- IEEE division (exact on finite values; `x/0 = ±inf` for `x ≠ 0`,
`0/0 = NaN`; a finite zero divisor is treated as `+0.0`). -/
def div : F → F → F
  | nan, _ => nan
  | _, nan => nan
  | fin a, fin b =>
      if b = 0 then (if a = 0 then nan else if 0 < a then inf else ninf)
      else fin (a / b)
  | fin _, inf => fin 0
  | fin _, ninf => fin 0
  | inf, fin a => if a < 0 then ninf else inf
  | ninf, fin a => if a < 0 then inf else ninf
  | inf, inf => nan
  | inf, ninf => nan
  | ninf, inf => nan
  | ninf, ninf => nan

/-- IEEE square root (`sqrt` of a negative value or `-inf` is NaN). -/
def sqrt : F → F
  | nan => nan
  | inf => inf
  | ninf => nan
  | fin a => if a < 0 then nan else fin (Real.sqrt a)

/-- IEEE absolute value. -/
def abs : F → F
  | nan => nan
  | inf => inf
  | ninf => inf
  | fin a => fin |a|

/-- IEEE `<`: false whenever either side is NaN. -/
def Lt : F → F → Prop
  | nan, _ => False
  | _, nan => False
  | fin a, fin b => a < b
  | fin _, inf => True
  | fin _, ninf => False
  | inf, _ => False
  | ninf, ninf => False
  | ninf, _ => True

/-- IEEE `≤`: false whenever either side is NaN. -/
def Le : F → F → Prop
  | nan, _ => False
  | _, nan => False
  | fin a, fin b => a ≤ b
  | fin _, inf => True
  | fin _, ninf => False
  | inf, inf => True
  | inf, _ => False
  | ninf, _ => True

/-- Rust `f32::min`: if one argument is NaN the other is returned. -/
def fmin : F → F → F
  | nan, b => b
  | a, nan => a
  | a, b => if Lt a b then a else b

/-- Rust `f32::max`: if one argument is NaN the other is returned. -/
def fmax : F → F → F
  | nan, b => b
  | a, nan => a
  | a, b => if Lt b a then a else b

/-- Rust `f32::signum` (sign of `+0.0` is `1.0`; our model has no `-0.0`). -/
def signum : F → F
  | nan => nan
  | inf => fin 1
  | ninf => fin (-1)
  | fin a => if a < 0 then fin (-1) else fin 1

/-- Rust `as usize` cast: NaN and negative values go to 0, `+inf`
saturates to `usize::MAX`; finite values truncate toward zero.
(Saturation of huge finite values is not modelled; every finite value
cast in this program is below 14.) -/
def toUsize : F → ℕ
  | nan => 0
  | ninf => 0
  | inf => 18446744073709551615
  | fin a => Int.toNat ⌊a⌋

/-- The value is finite. -/
def IsFin : F → Prop
  | fin _ => True
  | _ => False

@[simp] theorem neg_fin (a : ℝ) : neg (fin a) = fin (-a) := rfl

@[simp] theorem add_fin (a b : ℝ) : add (fin a) (fin b) = fin (a + b) := rfl

@[simp] theorem sub_fin (a b : ℝ) : sub (fin a) (fin b) = fin (a - b) := by
  simp [sub, add, neg, sub_eq_add_neg]

@[simp] theorem mul_fin (a b : ℝ) : mul (fin a) (fin b) = fin (a * b) := rfl

theorem div_fin (a b : ℝ) (hb : b ≠ 0) : div (fin a) (fin b) = fin (a / b) := by
  simp [div, hb]

@[simp] theorem abs_fin (a : ℝ) : abs (fin a) = fin |a| := rfl

@[simp] theorem lt_fin (a b : ℝ) : Lt (fin a) (fin b) ↔ a < b := Iff.rfl

@[simp] theorem le_fin (a b : ℝ) : Le (fin a) (fin b) ↔ a ≤ b := Iff.rfl

@[simp] theorem lt_fin_inf (a : ℝ) : Lt (fin a) inf := trivial

@[simp] theorem not_lt_nan (a : F) : ¬ Lt a nan := by cases a <;> exact not_false

@[simp] theorem not_nan_lt (a : F) : ¬ Lt nan a := by cases a <;> exact not_false

@[simp] theorem not_inf_lt (a : F) : ¬ Lt inf a := by cases a <;> exact not_false

@[simp] theorem sqrt_fin_nonneg (a : ℝ) (h : 0 ≤ a) :
    sqrt (fin a) = fin (Real.sqrt a) := by
  simp [sqrt, not_lt.mpr h]

end F

/-- Model of `notan::math::Vec3` (glam `Vec3`): three `f32` components. -/
structure V3 where
  x : F
  y : F
  z : F

namespace V3

/-- Componentwise vector addition. -/
def add (a b : V3) : V3 := ⟨F.add a.x b.x, F.add a.y b.y, F.add a.z b.z⟩

/-- Componentwise vector subtraction. -/
def sub (a b : V3) : V3 := ⟨F.sub a.x b.x, F.sub a.y b.y, F.sub a.z b.z⟩

/-- glam `Vec3 * Vec3`: componentwise multiplication. -/
def cmul (a b : V3) : V3 := ⟨F.mul a.x b.x, F.mul a.y b.y, F.mul a.z b.z⟩

/-- glam `f32 * Vec3` / `Vec3 * f32`: scalar multiplication. -/
def smul (s : F) (v : V3) : V3 := ⟨F.mul v.x s, F.mul v.y s, F.mul v.z s⟩

/-- glam `Vec3 / f32`: componentwise division by a scalar. -/
def sdiv (v : V3) (s : F) : V3 := ⟨F.div v.x s, F.div v.y s, F.div v.z s⟩

/-- glam `Vec3::dot`: `x*x + y*y + z*z`, summed left to right. -/
def dot (a b : V3) : F :=
  F.add (F.add (F.mul a.x b.x) (F.mul a.y b.y)) (F.mul a.z b.z)

/-- glam `Vec3::cross`. -/
def cross (a b : V3) : V3 :=
  ⟨F.sub (F.mul a.y b.z) (F.mul a.z b.y),
   F.sub (F.mul a.z b.x) (F.mul a.x b.z),
   F.sub (F.mul a.x b.y) (F.mul a.y b.x)⟩

/-- glam `Vec3::length_squared`. -/
def length_squared (v : V3) : F := dot v v

/-- glam `Vec3::length`. -/
def length (v : V3) : F := F.sqrt (length_squared v)

/-- glam `Vec3::normalize`: multiply by the reciprocal of the length. -/
def normalize (v : V3) : V3 := smul (F.div (F.fin 1) (length v)) v

/-- glam `Vec3::min` (componentwise Rust `f32::min`). -/
def vmin (a b : V3) : V3 := ⟨F.fmin a.x b.x, F.fmin a.y b.y, F.fmin a.z b.z⟩

/-- glam `Vec3::max` (componentwise Rust `f32::max`). -/
def vmax (a b : V3) : V3 := ⟨F.fmax a.x b.x, F.fmax a.y b.y, F.fmax a.z b.z⟩

/-- glam `Vec3::max_element` (NaN-ignoring `f32::max` is associative and
commutative, so the pairing order does not matter). -/
def max_element (v : V3) : F := F.fmax v.x (F.fmax v.y v.z)

/-- glam `Vec3::min_element`. -/
def min_element (v : V3) : F := F.fmin v.x (F.fmin v.y v.z)

/-- `Vec3::default()`: the zero vector. -/
def zero : V3 := ⟨F.fin 0, F.fin 0, F.fin 0⟩

/-- Build a vector from three exact real (finite) components. -/
def ofR (a b c : ℝ) : V3 := ⟨F.fin a, F.fin b, F.fin c⟩

/-- All three components are finite. -/
def IsFin (v : V3) : Prop := v.x.IsFin ∧ v.y.IsFin ∧ v.z.IsFin

end V3

/-- Model of `notan::math::Mat3` (glam `Mat3`), stored as three columns. -/
structure M3 where
  x_axis : V3
  y_axis : V3
  z_axis : V3

namespace M3

/-- glam `Mat3 * Vec3`: `x_axis * v.x + y_axis * v.y + z_axis * v.z`. -/
def mulVec (m : M3) (v : V3) : V3 :=
  V3.add (V3.add (V3.smul v.x m.x_axis) (V3.smul v.y m.y_axis)) (V3.smul v.z m.z_axis)

/-- glam `Mat3 * Mat3`: columns of the product are `m` applied to the
columns of `n`. -/
def matMul (m n : M3) : M3 :=
  ⟨mulVec m n.x_axis, mulVec m n.y_axis, mulVec m n.z_axis⟩

/-- glam `Mat3::transpose`. -/
def transpose (m : M3) : M3 :=
  ⟨⟨m.x_axis.x, m.y_axis.x, m.z_axis.x⟩,
   ⟨m.x_axis.y, m.y_axis.y, m.z_axis.y⟩,
   ⟨m.x_axis.z, m.y_axis.z, m.z_axis.z⟩⟩

/-- glam `Mat3::inverse`: adjugate columns scaled by the reciprocal of the
determinant, then transposed. -/
def inverseM (m : M3) : M3 :=
  let tmp0 := V3.cross m.y_axis m.z_axis
  let tmp1 := V3.cross m.z_axis m.x_axis
  let tmp2 := V3.cross m.x_axis m.y_axis
  let det := V3.dot m.z_axis tmp2
  let inv_det := F.div (F.fin 1) det
  transpose ⟨V3.smul inv_det tmp0, V3.smul inv_det tmp1, V3.smul inv_det tmp2⟩

/-- glam `Mat3::from_rotation_y(angle)`: columns
`(cos, 0, -sin)`, `(0, 1, 0)`, `(sin, 0, cos)`. -/
def from_rotation_y (angle : ℝ) : M3 :=
  ⟨⟨F.fin (Real.cos angle), F.fin 0, F.fin (-Real.sin angle)⟩,
   ⟨F.fin 0, F.fin 1, F.fin 0⟩,
   ⟨F.fin (Real.sin angle), F.fin 0, F.fin (Real.cos angle)⟩⟩

/-- `Mat3::default()`: the identity matrix. -/
def identity : M3 := ⟨⟨F.fin 1, F.fin 0, F.fin 0⟩, ⟨F.fin 0, F.fin 1, F.fin 0⟩, ⟨F.fin 0, F.fin 0, F.fin 1⟩⟩

/-- All nine entries are finite. -/
def IsFin (m : M3) : Prop := m.x_axis.IsFin ∧ m.y_axis.IsFin ∧ m.z_axis.IsFin

end M3

/-! Data model of the program (src/main.rs lines 7-54). -/

/-- `WIDTH` (src/main.rs line 7). -/
def WIDTH : ℕ := 1920

/-- `HEIGHT` (src/main.rs line 8). -/
def HEIGHT : ℕ := 1080

/-- `ROWS = HEIGHT / 16` (src/main.rs line 10); integer division gives 67. -/
def ROWS : ℕ := HEIGHT / 16

/-- `COLS = WIDTH / 8` (src/main.rs line 11); integer division gives 240. -/
def COLS : ℕ := WIDTH / 8

/-- `D`, the camera-to-projection-plane distance (src/main.rs line 14). -/
def D : F := F.fin 1

/-- `struct Triangle` (src/main.rs lines 16-20). -/
structure TriangleT where
  vertex1 : V3
  vertex2 : V3
  vertex3 : V3

/-- `struct Sphere` (src/main.rs lines 22-25). -/
structure Sphere where
  center : V3
  radius : F

/-- `struct Viewport` (src/main.rs lines 27-30). -/
structure Viewport where
  width : F
  height : F

/-- `struct Camera` (src/main.rs lines 32-37). -/
structure Camera where
  position : V3
  rotation : M3
  viewport : Viewport
  buffer : List Char

/-- `Camera::camera_pixel_to_viewport_distance` (src/main.rs lines 40-46). -/
def camera_pixel_to_viewport_distance (c : Camera) (x y : F) : V3 :=
  ⟨F.div (F.mul x c.viewport.width) (F.fin (COLS : ℝ)),
   F.div (F.mul y c.viewport.height) (F.fin (ROWS : ℝ)),
   D⟩

/-- `ray_intersects_triangle` (src/main.rs lines 133-173). -/
def ray_intersects_triangle (ray_origin ray_direction : V3) (t : TriangleT) :
    Option (V3 × V3) :=
  let EPSILON : F := F.fin 1e-6
  let triangle_normal :=
    V3.normalize (V3.cross (V3.sub t.vertex2 t.vertex1) (V3.sub t.vertex3 t.vertex1))
  let triangle_d := F.neg (V3.dot triangle_normal t.vertex1)
  let denominator := V3.dot ray_direction triangle_normal
  if F.Lt (F.abs denominator) EPSILON then none
  else
    let tpar := F.div (F.neg (F.add (V3.dot triangle_normal ray_origin) triangle_d)) denominator
    if F.Lt tpar EPSILON then none
    else
      let intersection_point := V3.add ray_origin (V3.smul tpar ray_direction)
      let e1 := V3.sub t.vertex2 t.vertex1
      let e2 := V3.sub t.vertex3 t.vertex1
      let q := V3.sub intersection_point t.vertex1
      let u := F.div (V3.dot q e1) (V3.length_squared e1)
      let v := F.div (V3.dot q e2) (V3.length_squared e2)
      if F.Le (F.fin 0) u ∧ F.Le (F.fin 0) v ∧ F.Le (F.add u v) (F.fin 1) then
        some (intersection_point, triangle_normal)
      else none

/-- `compute_cuboid_normal` (src/main.rs lines 202-213); the `for` loop over
the three axes is unrolled. -/
def compute_cuboid_normal (point position half_extents : V3) : V3 :=
  let local_point := V3.sub point position
  ⟨if F.Lt half_extents.x (F.add (F.abs local_point.x) (F.fin 1e-6))
     then F.signum local_point.x else F.fin 0,
   if F.Lt half_extents.y (F.add (F.abs local_point.y) (F.fin 1e-6))
     then F.signum local_point.y else F.fin 0,
   if F.Lt half_extents.z (F.add (F.abs local_point.z) (F.fin 1e-6))
     then F.signum local_point.z else F.fin 0⟩

/-- `ray_intersects_cuboid_no_rotation` (src/main.rs lines 175-200). -/
def ray_intersects_cuboid_no_rotation (origin direction position half_extents : V3) :
    Option (V3 × V3) :=
  let inv_direction : V3 :=
    ⟨F.div (F.fin 1) direction.x, F.div (F.fin 1) direction.y, F.div (F.fin 1) direction.z⟩
  let t1 := V3.cmul (V3.sub position origin) inv_direction
  let t2 := V3.cmul (V3.sub (V3.add position half_extents) origin) inv_direction
  let tmin := V3.vmin t1 t2
  let tmax := V3.vmax t1 t2
  let t_enter := V3.max_element tmin
  let t_exit := V3.min_element tmax
  if F.Lt t_exit (F.fin 0) ∨ F.Lt t_exit t_enter then none
  else
    let intersection_point := V3.add origin (V3.smul t_enter direction)
    some (intersection_point, compute_cuboid_normal intersection_point position half_extents)

/-- `ray_intersects_sphere` (src/main.rs lines 215-233). -/
def ray_intersects_sphere (origin direction : V3) (sphere : Sphere) : F × F :=
  let r := sphere.radius
  let co := V3.sub origin sphere.center
  let a := V3.dot direction direction
  let b := F.mul (F.fin 2) (V3.dot co direction)
  let c := F.sub (V3.dot co co) (F.mul r r)
  let discriminant := F.sub (F.mul b b) (F.mul (F.mul (F.fin 4) a) c)
  if F.Lt discriminant (F.fin 0) then (F.inf, F.inf)
  else
    (F.div (F.add (F.neg b) (F.sqrt discriminant)) (F.mul (F.fin 2) a),
     F.div (F.sub (F.neg b) (F.sqrt discriminant)) (F.mul (F.fin 2) a))

/-- The 14-character brightness palette `scale` (src/main.rs lines 252-254). -/
def scaleChars : List Char :=
  ['.', ',', ':', ';', '*', '+', 'o', 'x', '%', '&', '#', '$', '@', '9']

/-- The intensity `i` computed by `compute_lighting` (src/main.rs lines
236-250); the light position is the player position (line 243). -/
def lightingIntensity (p n player_pos : V3) : F :=
  let light_pos := player_pos
  let l := V3.sub light_pos p
  let n_dot_l := V3.dot n l
  if F.Lt (F.fin 0) n_dot_l then
    F.add (F.fin 0.2)
      (F.div (F.mul (F.fin 0.6) n_dot_l) (F.mul (V3.length n) (V3.length l)))
  else F.fin 0.2

/-- The palette index `(i * scale.len() as f32) as usize` computed by
`compute_lighting` (src/main.rs line 255); `scale.len()` is 14. -/
def lightingIndex (p n player_pos : V3) : ℕ :=
  F.toUsize (F.mul (lightingIntensity p n player_pos) (F.fin 14))

/-- `compute_lighting` (src/main.rs lines 235-257).  The source indexes
`scale[index]` and would panic out of bounds; the model totalises the
lookup with the sentinel `'?'`, which is not in the palette, so an
out-of-range index is observable. -/
def compute_lighting (p n player_pos : V3) : Char :=
  scaleChars.getD (lightingIndex p n player_pos) '?'

/-- The triangle hard-coded in `trace_ray` (src/main.rs lines 276-280). -/
def theTriangle : TriangleT := ⟨V3.ofR 0 (-1) 1, V3.ofR 3 (-1) (-1), V3.ofR 1 2 1⟩

/-- The cuboid position hard-coded in `trace_ray` (src/main.rs line 291). -/
def cuboid_position : V3 := V3.ofR (-1) 0 3

/-- The cuboid half-extents hard-coded in `trace_ray` (src/main.rs line 292). -/
def cuboid_half_extents : V3 := V3.ofR 1 1 1

/-- One iteration of the sphere loop of `trace_ray` (src/main.rs lines
263-274): each of the two roots is checked, in order, against the valid
range and the current closest parameter. -/
def sphereStep (origin direction : V3) (t_min t_max : F)
    (acc : F × Option Sphere) (s : Sphere) : F × Option Sphere :=
  let t12 := ray_intersects_sphere origin direction s
  let acc1 :=
    if F.Lt t_min t12.1 ∧ F.Lt t12.1 t_max ∧ F.Lt t12.1 acc.1 then (t12.1, some s) else acc
  if F.Lt t_min t12.2 ∧ F.Lt t12.2 t_max ∧ F.Lt t12.2 acc1.1 then (t12.2, some s) else acc1

/-- The final sphere-shading block of `trace_ray` (src/main.rs lines
302-309). -/
def sphereTail (origin direction : V3) (acc : F × Option Sphere) : Char :=
  match acc.2 with
  | some s =>
      let p := V3.add origin (V3.smul acc.1 direction)
      let n := V3.sub p s.center
      compute_lighting p (V3.sdiv n (V3.length n)) origin
  | none => ' '

/-- The cuboid block of `trace_ray` (src/main.rs lines 290-300), falling
through to the sphere block when the cuboid does not win. -/
def cuboidTail (origin direction : V3) (acc : F × Option Sphere) : Char :=
  match ray_intersects_cuboid_no_rotation origin direction cuboid_position cuboid_half_extents with
  | some (pt, nt) =>
      if F.Lt (V3.length pt) acc.1 then
        compute_lighting pt (V3.sdiv nt (V3.length nt)) origin
      else sphereTail origin direction acc
  | none => sphereTail origin direction acc

/-- `trace_ray` (src/main.rs lines 259-310). -/
def trace_ray (origin direction : V3) (t_min t_max : F) (spheres : List Sphere) : Char :=
  let acc := spheres.foldl (sphereStep origin direction t_min t_max) (F.inf, none)
  match ray_intersects_triangle origin direction theTriangle with
  | some (ip, n) =>
      if F.Lt (V3.length ip) acc.1 then compute_lighting ip (V3.normalize n) origin
      else cuboidTail origin direction acc
  | none => cuboidTail origin direction acc

/-- The per-pixel computation of the render loop in `update`
(src/main.rs lines 336-347): flat index to centered pixel offset, then a
traced ray from the camera with `t_min = 1.0`, `t_max = +inf`. -/
def renderPixel (camera : Camera) (spheres : List Sphere) (i : ℕ) : Char :=
  let x : ℤ := (i : ℤ) % (COLS : ℤ) - (COLS : ℤ) / 2
  let y : ℤ := (i : ℤ) / (COLS : ℤ) - (ROWS : ℤ) / 2
  trace_ray camera.position
    (M3.mulVec camera.rotation
      (camera_pixel_to_viewport_distance camera (F.fin (x : ℝ)) (F.fin (y : ℝ))))
    (F.fin 1) F.inf spheres

/-- The buffer-fill of `update` (src/main.rs lines 332-349): a map over
the flat pixel indices `0..ROWS*COLS`, results collected in order. -/
def renderBuffer (camera : Camera) (spheres : List Sphere) : List Char :=
  (List.range (ROWS * COLS)).map (renderPixel camera spheres)

/-- The `W`-key movement (src/main.rs lines 313-315). -/
def moveW (c : Camera) : Camera :=
  { c with position := V3.add c.position (M3.mulVec c.rotation (V3.ofR 0 0 0.05)) }

/-- The `S`-key movement (src/main.rs lines 316-318). -/
def moveS (c : Camera) : Camera :=
  { c with position := V3.sub c.position (M3.mulVec c.rotation (V3.ofR 0 0 0.05)) }

/-- The `A`-key movement (src/main.rs lines 319-321). -/
def moveA (c : Camera) : Camera :=
  { c with position := V3.sub c.position (M3.mulVec c.rotation (V3.ofR 0.05 0 0)) }

/-- The `D`-key movement (src/main.rs lines 322-324). -/
def moveD (c : Camera) : Camera :=
  { c with position := V3.add c.position (M3.mulVec c.rotation (V3.ofR 0.05 0 0)) }

/-- The `E`-key camera turn (src/main.rs lines 325-327). -/
def rotE (c : Camera) : Camera :=
  { c with rotation := M3.matMul c.rotation (M3.from_rotation_y 0.025) }

/-- The `Q`-key camera turn (src/main.rs lines 328-330). -/
def rotQ (c : Camera) : Camera :=
  { c with rotation := M3.matMul c.rotation (M3.inverseM (M3.from_rotation_y 0.025)) }

/-! Spec-side definitions, written from the specification's words, used to
compare the code's behaviour against the spec (claims C1 and C8). -/

/-- Spec-side renderer (spec §4.4): sequential row-major iteration, rows
outer and columns inner, each pixel traced with centered coordinates and
`t_min = 1.0`, `t_max = +inf`. -/
def seqRenderSpec (camera : Camera) (spheres : List Sphere) : List Char :=
  ((List.range ROWS).map (fun (r : ℕ) =>
    (List.range COLS).map (fun (c : ℕ) =>
      trace_ray camera.position
        (M3.mulVec camera.rotation
          (camera_pixel_to_viewport_distance camera
            (F.fin ((((c : ℤ) - (COLS : ℤ) / 2 : ℤ)) : ℝ))
            (F.fin ((((r : ℤ) - (ROWS : ℤ) / 2 : ℤ)) : ℝ))))
        (F.fin 1) F.inf spheres))).flatten

/-- Build a matrix from nine exact real entries (three columns). -/
def M3.ofR (a b c d e f g h i : ℝ) : M3 :=
  ⟨V3.ofR a b c, V3.ofR d e f, V3.ofR g h i⟩

/-- A camera built from exact real components. -/
def mkCam (px py pz a b c d e f g h i : ℝ) (vp : Viewport) (buf : List Char) : Camera :=
  ⟨V3.ofR px py pz, M3.ofR a b c d e f g h i, vp, buf⟩

/-- A sphere list built from exact real data `(cx, cy, cz, r)`. -/
def spheresOfR (l : List (ℝ × ℝ × ℝ × ℝ)) : List Sphere :=
  l.map fun q => ⟨V3.ofR q.1 q.2.1 q.2.2.1, F.fin q.2.2.2⟩

/-- The quadratic coefficient `a = d·d` solved by `ray_intersects_sphere`
(src/main.rs line 220). -/
def sph_a (d1 d2 d3 : ℝ) : ℝ := d1 * d1 + d2 * d2 + d3 * d3

/-- The quadratic coefficient `b = 2·(o-c)·d` (src/main.rs line 221). -/
def sph_b (o1 o2 o3 d1 d2 d3 c1 c2 c3 : ℝ) : ℝ :=
  2 * ((o1 - c1) * d1 + (o2 - c2) * d2 + (o3 - c3) * d3)

/-- The quadratic coefficient `c = (o-c)·(o-c) - r²` (src/main.rs line 222). -/
def sph_c (o1 o2 o3 c1 c2 c3 r : ℝ) : ℝ :=
  ((o1 - c1) * (o1 - c1) + (o2 - c2) * (o2 - c2) + (o3 - c3) * (o3 - c3)) - r * r

/-- The discriminant `b*b - 4*a*c` (src/main.rs line 224). -/
def sph_disc (o1 o2 o3 d1 d2 d3 c1 c2 c3 r : ℝ) : ℝ :=
  sph_b o1 o2 o3 d1 d2 d3 c1 c2 c3 * sph_b o1 o2 o3 d1 d2 d3 c1 c2 c3 -
    4 * sph_a d1 d2 d3 * sph_c o1 o2 o3 c1 c2 c3 r

/-- The accumulator shapes reachable by the sphere loop on exact-real
scenes: untouched, or a finite parameter with an exact-real sphere. -/
def AccOk (acc : F × Option Sphere) : Prop :=
  acc = (F.inf, none) ∨
  ∃ t a b c r : ℝ, acc = (F.fin t, some ⟨V3.ofR a b c, F.fin r⟩)

/-- The sphere hit record the renderer shades for parameter `t` on sphere
`s`: hit point `o + t*d` and the char shaded with the normalised radial
normal (src/main.rs lines 302-307). -/
def sphereHitRecord (o d : V3) (s : Sphere) (t : F) : V3 × Char :=
  let p := V3.add o (V3.smul t d)
  let n := V3.sub p s.center
  (p, compute_lighting p (V3.sdiv n (V3.length n)) o)

/-- Spec-side (claim C1): the list of all candidate hits of a ray, as
(hit point, shaded character) pairs — the two sphere roots of every
sphere that pass the `t_min < t < t_max` validity check, then the
triangle hit, then the cuboid hit. -/
def specCandidates (o d : V3) (t_min t_max : F) (spheres : List Sphere) :
    List (V3 × Char) :=
  (spheres.flatMap fun s =>
    (if F.Lt t_min (ray_intersects_sphere o d s).1 ∧
        F.Lt (ray_intersects_sphere o d s).1 t_max
      then [sphereHitRecord o d s (ray_intersects_sphere o d s).1] else []) ++
    (if F.Lt t_min (ray_intersects_sphere o d s).2 ∧
        F.Lt (ray_intersects_sphere o d s).2 t_max
      then [sphereHitRecord o d s (ray_intersects_sphere o d s).2] else [])) ++
  ((match ray_intersects_triangle o d theTriangle with
    | some (ip, n) => [(ip, compute_lighting ip (V3.normalize n) o)]
    | none => []) ++
   (match ray_intersects_cuboid_no_rotation o d cuboid_position cuboid_half_extents with
    | some (pt, nt) => [(pt, compute_lighting pt (V3.sdiv nt (V3.length nt)) o)]
    | none => []))

/-- Spec-side (claim C1, spec sections 4.2 and 7): select the globally
closest valid hit by comparing each candidate hit point's Euclidean
distance from the RAY ORIGIN, and return the shaded character of that
closest hit; a space if there is no hit. -/
def specSelectChar (o d : V3) (t_min t_max : F) (spheres : List Sphere) : Char :=
  (((specCandidates o d t_min t_max spheres).foldl
    (fun acc c =>
      if F.Lt (V3.length (V3.sub c.1 o)) acc.1
        then (V3.length (V3.sub c.1 o), some c.2) else acc)
    (F.inf, none)).2).getD ' '

/-- The flattened list of raw sphere candidates `(t, sphere)`: both
quadratic roots of every sphere, in loop order. -/
def sphereCandTs (o d : V3) (spheres : List Sphere) : List (F × Sphere) :=
  spheres.flatMap fun s =>
    [((ray_intersects_sphere o d s).1, s), ((ray_intersects_sphere o d s).2, s)]

/-- One step of minimum-selection over raw sphere candidates: a candidate
replaces the accumulator iff its RAW PARAMETER `t` passes the range check
and strictly beats the accumulator parameter. -/
def candStep (t_min t_max : F) (acc : F × Option Sphere) (c : F × Sphere) :
    F × Option Sphere :=
  if F.Lt t_min c.1 ∧ F.Lt c.1 t_max ∧ F.Lt c.1 acc.1 then (c.1, some c.2) else acc

/-- Amended-claim definition (claim C1): the selection rule the renderer
actually implements, written out in full.  The sphere stage selects the
minimum RAW ray parameter over the flattened range-checked candidate list
(both roots of every sphere, in loop order, first minimum kept); the
triangle hit is accepted iff the Euclidean length of its hit point
(distance from the WORLD origin, not from the ray origin) beats that
winning raw parameter, and an accepted triangle takes priority over the
cuboid unconditionally; the cuboid hit is accepted under the same
length-versus-raw-parameter test; otherwise the sphere winner, if any, is
shaded, and a space is produced when there is none. -/
def amendedSelectChar (o d : V3) (t_min t_max : F) (spheres : List Sphere) : Char :=
  let acc := (sphereCandTs o d spheres).foldl (candStep t_min t_max) (F.inf, none)
  let sphereChar :=
    match acc.2 with
    | some s =>
        let p := V3.add o (V3.smul acc.1 d)
        let n := V3.sub p s.center
        compute_lighting p (V3.sdiv n (V3.length n)) o
    | none => ' '
  let cuboidChar :=
    match ray_intersects_cuboid_no_rotation o d cuboid_position cuboid_half_extents with
    | some (pt, nt) =>
        if F.Lt (V3.length pt) acc.1
          then compute_lighting pt (V3.sdiv nt (V3.length nt)) o
          else sphereChar
    | none => sphereChar
  match ray_intersects_triangle o d theTriangle with
  | some (ip, n) =>
      if F.Lt (V3.length ip) acc.1 then compute_lighting ip (V3.normalize n) o
      else cuboidChar
  | none => cuboidChar

/-! Helper lemmas. -/

theorem mulVec_ofR (a b c d e f g h i x y z : ℝ) :
    M3.mulVec (M3.ofR a b c d e f g h i) (V3.ofR x y z) =
      V3.ofR (a * x + d * y + g * z) (b * x + e * y + h * z) (c * x + f * y + i * z) := by
  simp [M3.mulVec, M3.ofR, V3.ofR, V3.smul, V3.add]

theorem smul_ofR (s x y z : ℝ) :
    V3.smul (F.fin s) (V3.ofR x y z) = V3.ofR (x * s) (y * s) (z * s) := by
  simp [V3.smul, V3.ofR]

theorem add_ofR (x y z u v w : ℝ) :
    V3.add (V3.ofR x y z) (V3.ofR u v w) = V3.ofR (x + u) (y + v) (z + w) := by
  simp [V3.add, V3.ofR]

theorem sub_ofR (x y z u v w : ℝ) :
    V3.sub (V3.ofR x y z) (V3.ofR u v w) = V3.ofR (x - u) (y - v) (z - w) := by
  simp [V3.sub, V3.ofR]

/-- glam's adjugate-and-determinant inverse, applied to a rotation about
the Y axis, is the rotation about the Y axis by the opposite angle. -/
theorem inverseM_from_rotation_y (θ : ℝ) :
    M3.inverseM (M3.from_rotation_y θ) = M3.from_rotation_y (-θ) := by
  have pyth : Real.sin θ * Real.sin θ + Real.cos θ * Real.cos θ = 1 := by
    nlinarith [Real.sin_sq_add_cos_sq θ]
  simp only [M3.inverseM, M3.from_rotation_y, M3.transpose, V3.cross, V3.dot, V3.smul,
    F.mul_fin, F.add_fin, F.sub_fin, F.neg_fin]
  norm_num
  rw [pyth, F.div_fin 1 1 one_ne_zero]
  norm_num [Real.sin_neg, Real.cos_neg, V3.ofR]
  linarith

theorem range_mul_flatten (m n : ℕ) :
    List.range (m * n) =
      ((List.range m).map (fun r => (List.range n).map (fun c => r * n + c))).flatten := by
  induction m with
  | zero => simp
  | succ m ih =>
      rw [Nat.succ_mul, List.range_add, ih, List.range_succ, List.map_append,
        List.flatten_append]
      simp [Nat.add_comm]

theorem ofR_eq_iff (x y z u v w : ℝ) :
    V3.ofR x y z = V3.ofR u v w ↔ x = u ∧ y = v ∧ z = w := by
  simp [V3.ofR]

theorem mulVec_ofR_zaxis (a b c d e f g h i s : ℝ) :
    M3.mulVec (M3.ofR a b c d e f g h i) (V3.ofR 0 0 s) =
      V3.smul (F.fin s) (M3.mulVec (M3.ofR a b c d e f g h i) (V3.ofR 0 0 1)) := by
  rw [mulVec_ofR, mulVec_ofR, smul_ofR, ofR_eq_iff]
  refine ⟨by ring, by ring, by ring⟩

theorem mulVec_ofR_xaxis (a b c d e f g h i s : ℝ) :
    M3.mulVec (M3.ofR a b c d e f g h i) (V3.ofR s 0 0) =
      V3.smul (F.fin s) (M3.mulVec (M3.ofR a b c d e f g h i) (V3.ofR 1 0 0)) := by
  rw [mulVec_ofR, mulVec_ofR, smul_ofR, ofR_eq_iff]
  refine ⟨by ring, by ring, by ring⟩

/-- C7: Each movement operation translates the camera position by exactly
0.05 units along the rotated +Z axis (forward) or the rotated +X axis
(right), positively or negatively; each rotate operation replaces the
camera rotation by its composition (matrix product) with the 0.025-radian
rotation matrix about the world Y axis, or with that rotation's inverse
(glam's matrix `inverse` of the Y-rotation equals the Y-rotation by the
opposite angle); no other camera field changes. -/
theorem claim_C7_camera_ops (px py pz a b c d e f g h i : ℝ) (vp : Viewport)
    (buf : List Char) :
    ((moveW (mkCam px py pz a b c d e f g h i vp buf)).position
        = V3.add (V3.ofR px py pz)
            (V3.smul (F.fin 0.05) (M3.mulVec (M3.ofR a b c d e f g h i) (V3.ofR 0 0 1))) ∧
      (moveS (mkCam px py pz a b c d e f g h i vp buf)).position
        = V3.sub (V3.ofR px py pz)
            (V3.smul (F.fin 0.05) (M3.mulVec (M3.ofR a b c d e f g h i) (V3.ofR 0 0 1))) ∧
      (moveA (mkCam px py pz a b c d e f g h i vp buf)).position
        = V3.sub (V3.ofR px py pz)
            (V3.smul (F.fin 0.05) (M3.mulVec (M3.ofR a b c d e f g h i) (V3.ofR 1 0 0))) ∧
      (moveD (mkCam px py pz a b c d e f g h i vp buf)).position
        = V3.add (V3.ofR px py pz)
            (V3.smul (F.fin 0.05) (M3.mulVec (M3.ofR a b c d e f g h i) (V3.ofR 1 0 0)))) ∧
    ((rotE (mkCam px py pz a b c d e f g h i vp buf)).rotation
        = M3.matMul (M3.ofR a b c d e f g h i) (M3.from_rotation_y 0.025) ∧
      (rotQ (mkCam px py pz a b c d e f g h i vp buf)).rotation
        = M3.matMul (M3.ofR a b c d e f g h i) (M3.from_rotation_y (-0.025))) ∧
    ((∀ op ∈ [moveW, moveS, moveA, moveD],
        (op (mkCam px py pz a b c d e f g h i vp buf)).rotation = M3.ofR a b c d e f g h i ∧
        (op (mkCam px py pz a b c d e f g h i vp buf)).viewport = vp ∧
        (op (mkCam px py pz a b c d e f g h i vp buf)).buffer = buf) ∧
      (∀ op ∈ [rotE, rotQ],
        (op (mkCam px py pz a b c d e f g h i vp buf)).position = V3.ofR px py pz ∧
        (op (mkCam px py pz a b c d e f g h i vp buf)).viewport = vp ∧
        (op (mkCam px py pz a b c d e f g h i vp buf)).buffer = buf)) := by
  refine ⟨⟨?_, ?_, ?_, ?_⟩, ⟨rfl, ?_⟩, ?_, ?_⟩ <;>
    simp only [mkCam, moveW, moveS, moveA, moveD, rotE, rotQ]
  · show V3.add (V3.ofR px py pz) (M3.mulVec _ (V3.ofR 0 0 0.05)) = _
    rw [mulVec_ofR_zaxis a b c d e f g h i 0.05]
  · show V3.sub (V3.ofR px py pz) (M3.mulVec _ (V3.ofR 0 0 0.05)) = _
    rw [mulVec_ofR_zaxis a b c d e f g h i 0.05]
  · show V3.sub (V3.ofR px py pz) (M3.mulVec _ (V3.ofR 0.05 0 0)) = _
    rw [mulVec_ofR_xaxis a b c d e f g h i 0.05]
  · show V3.add (V3.ofR px py pz) (M3.mulVec _ (V3.ofR 0.05 0 0)) = _
    rw [mulVec_ofR_xaxis a b c d e f g h i 0.05]
  · show M3.matMul _ (M3.inverseM (M3.from_rotation_y 0.025)) = _
    rw [inverseM_from_rotation_y]
  · intro op hop
    simp only [List.mem_cons, List.not_mem_nil, or_false] at hop
    rcases hop with rfl | rfl | rfl | rfl <;> exact ⟨rfl, rfl, rfl⟩
  · intro op hop
    simp only [List.mem_cons, List.not_mem_nil, or_false] at hop
    rcases hop with rfl | rfl <;> exact ⟨rfl, rfl, rfl⟩

theorem dot_ofR (a b c x y z : ℝ) :
    V3.dot (V3.ofR a b c) (V3.ofR x y z) = F.fin (a * x + b * y + c * z) := by
  simp [V3.dot, V3.ofR]

theorem length_ofR (a b c : ℝ) :
    V3.length (V3.ofR a b c) = F.fin (Real.sqrt (a * a + b * b + c * c)) := by
  rw [V3.length, V3.length_squared, dot_ofR]
  exact F.sqrt_fin_nonneg _
    (by nlinarith [mul_self_nonneg a, mul_self_nonneg b, mul_self_nonneg c])

/-- Lagrange form of the Cauchy-Schwarz inequality in three dimensions. -/
theorem dot_sq_le_sq_mul_sq (a1 a2 a3 b1 b2 b3 : ℝ) :
    (a1 * b1 + a2 * b2 + a3 * b3) ^ 2 ≤
      (a1 * a1 + a2 * a2 + a3 * a3) * (b1 * b1 + b2 * b2 + b3 * b3) := by
  nlinarith [sq_nonneg (a1 * b2 - a2 * b1), sq_nonneg (a1 * b3 - a3 * b1),
    sq_nonneg (a2 * b3 - a3 * b2)]

/-- On finite inputs the lighting intensity is a finite value in
`[0.2, 0.8]`: the ambient floor plus at most `0.6` of diffuse term. -/
theorem lightingIntensity_ofR (p1 p2 p3 n1 n2 n3 l1 l2 l3 : ℝ) :
    ∃ i : ℝ, lightingIntensity (V3.ofR p1 p2 p3) (V3.ofR n1 n2 n3) (V3.ofR l1 l2 l3) = F.fin i ∧
      0.2 ≤ i ∧ i ≤ 0.8 := by
  unfold lightingIntensity
  simp only [sub_ofR, dot_ofR]
  set x1 := l1 - p1
  set x2 := l2 - p2
  set x3 := l3 - p3
  set dd := n1 * x1 + n2 * x2 + n3 * x3 with hdd
  by_cases hpos : (0 : ℝ) < dd
  · rw [if_pos (by simpa using hpos)]
    set nsq := n1 * n1 + n2 * n2 + n3 * n3 with hnsq
    set lsq := x1 * x1 + x2 * x2 + x3 * x3 with hlsq
    have cs : dd ^ 2 ≤ nsq * lsq := dot_sq_le_sq_mul_sq n1 n2 n3 x1 x2 x3
    have hnsq0 : 0 ≤ nsq := by
      nlinarith [mul_self_nonneg n1, mul_self_nonneg n2, mul_self_nonneg n3]
    have hlsq0 : 0 ≤ lsq := by
      nlinarith [mul_self_nonneg x1, mul_self_nonneg x2, mul_self_nonneg x3]
    have hnsqpos : 0 < nsq := by
      rcases lt_or_eq_of_le hnsq0 with h | h
      · exact h
      · exfalso; nlinarith
    have hlsqpos : 0 < lsq := by
      rcases lt_or_eq_of_le hlsq0 with h | h
      · exact h
      · exfalso; nlinarith
    rw [length_ofR, length_ofR, F.mul_fin, F.mul_fin]
    have hsn : 0 < Real.sqrt nsq := Real.sqrt_pos.mpr hnsqpos
    have hsl : 0 < Real.sqrt lsq := Real.sqrt_pos.mpr hlsqpos
    have hden : 0 < Real.sqrt nsq * Real.sqrt lsq := mul_pos hsn hsl
    rw [F.div_fin _ _ (ne_of_gt hden), F.add_fin]
    refine ⟨_, rfl, ?_, ?_⟩
    · have : 0 < 0.6 * dd / (Real.sqrt nsq * Real.sqrt lsq) := by positivity
      linarith
    · have hdle : dd ≤ Real.sqrt nsq * Real.sqrt lsq := by
        rw [← Real.sqrt_mul hnsq0]
        exact (Real.le_sqrt (le_of_lt hpos) (mul_nonneg hnsq0 hlsq0)).mpr cs
      have : 0.6 * dd / (Real.sqrt nsq * Real.sqrt lsq) ≤ 0.6 := by
        rw [div_le_iff₀ hden]
        nlinarith
      linarith
  · rw [if_neg (by simpa using hpos)]
    exact ⟨0.2, rfl, le_refl _, by norm_num⟩

/-- A palette lookup with an index at most 13 lands in the palette. -/
theorem scale_getD_mem (k : ℕ) (hk : k ≤ 13) : scaleChars.getD k '?' ∈ scaleChars := by
  interval_cases k <;> decide

/-- The palette index determined by a finite intensity in `[0.2, 0.8]`
lies between 2 and 11. -/
theorem toUsize_mul14_le (i : ℝ) (_h1 : 0.2 ≤ i) (h2 : i ≤ 0.8) :
    F.toUsize (F.mul (F.fin i) (F.fin 14)) ≤ 13 := by
  show Int.toNat ⌊i * 14⌋ ≤ 13
  have hub : ⌊i * (14 : ℝ)⌋ < 12 := Int.floor_lt.mpr (by norm_num; nlinarith)
  omega

theorem F.lt_ne_nan_right {a b : F} (h : F.Lt a b) : b ≠ F.nan := by
  cases a <;> cases b <;> simp_all [F.Lt]

theorem F.lt_ne_nan_left {a b : F} (h : F.Lt a b) : a ≠ F.nan := by
  cases a <;> cases b <;> simp_all [F.Lt]

theorem F.lt_trans' {a b c : F} (h1 : F.Lt a b) (h2 : F.Lt b c) : F.Lt a c := by
  cases a <;> cases b <;> cases c <;> simp_all [F.Lt]
  exact lt_trans h1 h2

theorem F.eq_of_not_lt_not_lt {a b : F} (ha : a ≠ F.nan) (hb : b ≠ F.nan)
    (h1 : ¬ F.Lt a b) (h2 : ¬ F.Lt b a) : a = b := by
  cases a <;> cases b <;> simp_all [F.Lt]
  linarith

theorem F.fmin_eq_ite (a b : F) (ha : a ≠ F.nan) (hb : b ≠ F.nan) :
    F.fmin a b = if F.Lt a b then a else b := by
  cases a <;> cases b <;> first | rfl | (exact absurd rfl ha) | (exact absurd rfl hb)

theorem F.fmin_self (a : F) : F.fmin a a = a := by
  cases a <;> simp [F.fmin]

theorem F.lt_asymm' {a b : F} (h : F.Lt a b) : ¬ F.Lt b a := by
  cases a <;> cases b <;> simp_all [F.Lt]
  linarith

theorem F.fmin_ne_nan {a b : F} (ha : a ≠ F.nan) (hb : b ≠ F.nan) : F.fmin a b ≠ F.nan := by
  rw [F.fmin_eq_ite a b ha hb]
  split <;> assumption

theorem F.not_lt_fmin_left (a b : F) (ha : a ≠ F.nan) (hb : b ≠ F.nan) :
    ¬ F.Lt a (F.fmin a b) := by
  rw [F.fmin_eq_ite a b ha hb]
  by_cases h : F.Lt a b
  · rw [if_pos h]
    cases a <;> simp [F.Lt]
  · rw [if_neg h]
    exact h

theorem F.fmin_eq_left {m a : F} (hm : m ≠ F.nan) (ha : a ≠ F.nan) (h : ¬ F.Lt a m) :
    F.fmin m a = m := by
  rw [F.fmin_eq_ite m a hm ha]
  by_cases h2 : F.Lt m a
  · rw [if_pos h2]
  · rw [if_neg h2, F.eq_of_not_lt_not_lt ha hm h h2]

/-- A guarded closest-parameter update is a NaN-ignoring minimum with the
validity-filtered candidate. -/
theorem F.ite_lt_eq_fmin (t_min t_max t m : F) (hm : m ≠ F.nan) :
    (if F.Lt t_min t ∧ F.Lt t t_max ∧ F.Lt t m then t else m) =
      F.fmin m (if F.Lt t_min t ∧ F.Lt t t_max then t else m) := by
  by_cases hV : F.Lt t_min t ∧ F.Lt t t_max
  · have ht : t ≠ F.nan := F.lt_ne_nan_right hV.1
    rw [if_pos hV]
    by_cases hC : F.Lt t m
    · rw [if_pos ⟨hV.1, hV.2, hC⟩, F.fmin_eq_ite _ _ hm ht, if_neg (F.lt_asymm' hC)]
    · rw [if_neg (fun h => hC h.2.2), F.fmin_eq_ite _ _ hm ht]
      by_cases h2 : F.Lt m t
      · rw [if_pos h2]
      · rw [if_neg h2, F.eq_of_not_lt_not_lt hm ht h2 hC]
  · rw [if_neg (fun h => hV ⟨h.1, h.2.1⟩), if_neg hV, F.fmin_self]

/-- The sphere-loop body of `trace_ray` checks the two returned roots
independently against the validity range `t_min < t < t_max`: the updated
closest parameter is the NaN-ignoring minimum of the incoming closest
parameter and every root that passes the range check. -/
theorem sphereStep_min (o d : V3) (t_min t_max : F) (acc : F × Option Sphere) (s : Sphere)
    (hacc : acc.1 ≠ F.nan) :
    (sphereStep o d t_min t_max acc s).1 =
      F.fmin
        (F.fmin acc.1
          (if F.Lt t_min (ray_intersects_sphere o d s).1 ∧
              F.Lt (ray_intersects_sphere o d s).1 t_max
            then (ray_intersects_sphere o d s).1 else acc.1))
        (if F.Lt t_min (ray_intersects_sphere o d s).2 ∧
            F.Lt (ray_intersects_sphere o d s).2 t_max
          then (ray_intersects_sphere o d s).2 else acc.1) := by
  unfold sphereStep
  simp only [apply_ite (Prod.fst (α := F) (β := Option Sphere))]
  set t1 := (ray_intersects_sphere o d s).1 with ht1def
  set t2 := (ray_intersects_sphere o d s).2 with ht2def
  have hu1 : (if F.Lt t_min t1 ∧ F.Lt t1 t_max then t1 else acc.1) ≠ F.nan := by
    split
    · exact F.lt_ne_nan_right (by assumption : F.Lt t_min t1 ∧ F.Lt t1 t_max).1
    · exact hacc
  have hM : F.fmin acc.1 (if F.Lt t_min t1 ∧ F.Lt t1 t_max then t1 else acc.1) ≠ F.nan :=
    F.fmin_ne_nan hacc hu1
  rw [F.ite_lt_eq_fmin t_min t_max t1 acc.1 hacc,
    F.ite_lt_eq_fmin t_min t_max t2 _ hM]
  by_cases hV2 : F.Lt t_min t2 ∧ F.Lt t2 t_max
  · rw [if_pos hV2, if_pos hV2]
  · rw [if_neg hV2, if_neg hV2, F.fmin_self]
    exact (F.fmin_eq_left hM hacc (F.not_lt_fmin_left _ _ hacc hu1)).symm

/-- `ray_intersects_sphere` on finite inputs, written out in scalar form:
the quadratic coefficients are `a = d·d`, `b = 2·(o-c)·d`,
`c = (o-c)·(o-c) - r²`; a negative discriminant yields `(inf, inf)`,
otherwise the two root expressions are returned. -/
theorem ray_intersects_sphere_ofR (o1 o2 o3 d1 d2 d3 c1 c2 c3 r : ℝ) :
    ray_intersects_sphere (V3.ofR o1 o2 o3) (V3.ofR d1 d2 d3) ⟨V3.ofR c1 c2 c3, F.fin r⟩ =
      (let P := (o1 - c1) * d1 + (o2 - c2) * d2 + (o3 - c3) * d3
       let Q := d1 * d1 + d2 * d2 + d3 * d3
       let R := (o1 - c1) * (o1 - c1) + (o2 - c2) * (o2 - c2) + (o3 - c3) * (o3 - c3)
       let disc := 2 * P * (2 * P) - 4 * Q * (R - r * r)
       if disc < 0 then (F.inf, F.inf)
       else
         (F.div (F.add (F.fin (-(2 * P))) (F.sqrt (F.fin disc))) (F.fin (2 * Q)),
          F.div (F.sub (F.fin (-(2 * P))) (F.sqrt (F.fin disc))) (F.fin (2 * Q)))) := by
  unfold ray_intersects_sphere
  simp only [sub_ofR, dot_ofR, F.mul_fin, F.sub_fin, F.neg_fin, F.lt_fin]

/-- `ray_intersects_sphere` with a non-negative discriminant returns the
two quadratic roots `(-b ± √disc) / 2a` (here `b = 2P`, `a = Q`). -/
theorem ray_intersects_sphere_roots (o1 o2 o3 d1 d2 d3 c1 c2 c3 r P Q R : ℝ)
    (hP : P = (o1 - c1) * d1 + (o2 - c2) * d2 + (o3 - c3) * d3)
    (hQ : Q = d1 * d1 + d2 * d2 + d3 * d3)
    (hR : R = (o1 - c1) * (o1 - c1) + (o2 - c2) * (o2 - c2) + (o3 - c3) * (o3 - c3))
    (hd : 0 ≤ 2 * P * (2 * P) - 4 * Q * (R - r * r)) :
    ray_intersects_sphere (V3.ofR o1 o2 o3) (V3.ofR d1 d2 d3) ⟨V3.ofR c1 c2 c3, F.fin r⟩ =
      (F.div (F.fin (-(2 * P) + Real.sqrt (2 * P * (2 * P) - 4 * Q * (R - r * r))))
         (F.fin (2 * Q)),
       F.div (F.fin (-(2 * P) - Real.sqrt (2 * P * (2 * P) - 4 * Q * (R - r * r))))
         (F.fin (2 * Q))) := by
  subst hP hQ hR
  rw [ray_intersects_sphere_ofR]
  simp only []
  rw [if_neg (not_lt.mpr hd), F.sqrt_fin_nonneg _ hd, F.add_fin, F.sub_fin]

theorem cross_ofR (a b c x y z : ℝ) :
    V3.cross (V3.ofR a b c) (V3.ofR x y z) =
      V3.ofR (b * z - c * y) (c * x - a * z) (a * y - b * x) := by
  simp [V3.cross, V3.ofR]

theorem normalize_ofR (a b c : ℝ) (h : 0 < a * a + b * b + c * c) :
    V3.normalize (V3.ofR a b c) =
      V3.ofR (a * (1 / Real.sqrt (a * a + b * b + c * c)))
        (b * (1 / Real.sqrt (a * a + b * b + c * c)))
        (c * (1 / Real.sqrt (a * a + b * b + c * c))) := by
  unfold V3.normalize
  rw [length_ofR, F.div_fin _ _ (ne_of_gt (Real.sqrt_pos.mpr h)), smul_ofR]

/-- Both quadratic-formula roots satisfy the quadratic. -/
theorem quad_root_eval (a b c sd : ℝ) (ha : a ≠ 0) (h : sd * sd = b * b - 4 * a * c) :
    a * (((-b + sd) / (2 * a)) * ((-b + sd) / (2 * a))) + b * ((-b + sd) / (2 * a)) + c = 0 ∧
    a * (((-b - sd) / (2 * a)) * ((-b - sd) / (2 * a))) + b * ((-b - sd) / (2 * a)) + c = 0 := by
  constructor
  · have e1 : a * (((-b + sd) / (2 * a)) * ((-b + sd) / (2 * a))) +
        b * ((-b + sd) / (2 * a)) + c = (sd * sd - (b * b - 4 * a * c)) / (4 * a) := by
      field_simp
      ring
    rw [e1, h, sub_self, zero_div]
  · have e2 : a * (((-b - sd) / (2 * a)) * ((-b - sd) / (2 * a))) +
        b * ((-b - sd) / (2 * a)) + c = (sd * sd - (b * b - 4 * a * c)) / (4 * a) := by
      field_simp
      ring
    rw [e2, h, sub_self, zero_div]

/-- C3: `ray_intersects_sphere` solves the quadratic with coefficients
`a = d·d`, `b = 2·(o-c)·d`, `c = (o-c)·(o-c) - r²`.  A negative
discriminant yields no hit (the `(inf, inf)` sentinel); otherwise the two
roots `(-b ± √disc)/2a` are returned (the `+` root first) and each
satisfies the quadratic; and the sphere loop of `trace_ray` checks each
returned root independently, a root being accepted only when
`t_min < t < t_max` (the updated closest parameter is the minimum of the
incoming one and every root passing that check). -/
theorem claim_C3_sphere_quadratic (o1 o2 o3 d1 d2 d3 c1 c2 c3 r : ℝ)
    (t_min t_max : F) (acc : F × Option Sphere) (s : Sphere) (hacc : acc.1 ≠ F.nan) :
    ((sph_disc o1 o2 o3 d1 d2 d3 c1 c2 c3 r < 0 →
        ray_intersects_sphere (V3.ofR o1 o2 o3) (V3.ofR d1 d2 d3)
          ⟨V3.ofR c1 c2 c3, F.fin r⟩ = (F.inf, F.inf)) ∧
     (0 ≤ sph_disc o1 o2 o3 d1 d2 d3 c1 c2 c3 r → sph_a d1 d2 d3 ≠ 0 →
        ray_intersects_sphere (V3.ofR o1 o2 o3) (V3.ofR d1 d2 d3)
            ⟨V3.ofR c1 c2 c3, F.fin r⟩ =
          (F.fin ((-sph_b o1 o2 o3 d1 d2 d3 c1 c2 c3 +
              Real.sqrt (sph_disc o1 o2 o3 d1 d2 d3 c1 c2 c3 r)) / (2 * sph_a d1 d2 d3)),
           F.fin ((-sph_b o1 o2 o3 d1 d2 d3 c1 c2 c3 -
              Real.sqrt (sph_disc o1 o2 o3 d1 d2 d3 c1 c2 c3 r)) / (2 * sph_a d1 d2 d3))) ∧
        (∀ t : ℝ,
          (t = (-sph_b o1 o2 o3 d1 d2 d3 c1 c2 c3 +
              Real.sqrt (sph_disc o1 o2 o3 d1 d2 d3 c1 c2 c3 r)) / (2 * sph_a d1 d2 d3) ∨
           t = (-sph_b o1 o2 o3 d1 d2 d3 c1 c2 c3 -
              Real.sqrt (sph_disc o1 o2 o3 d1 d2 d3 c1 c2 c3 r)) / (2 * sph_a d1 d2 d3)) →
          sph_a d1 d2 d3 * (t * t) + sph_b o1 o2 o3 d1 d2 d3 c1 c2 c3 * t +
            sph_c o1 o2 o3 c1 c2 c3 r = 0))) ∧
    (sphereStep (V3.ofR o1 o2 o3) (V3.ofR d1 d2 d3) t_min t_max acc s).1 =
      F.fmin
        (F.fmin acc.1
          (if F.Lt t_min (ray_intersects_sphere (V3.ofR o1 o2 o3) (V3.ofR d1 d2 d3) s).1 ∧
              F.Lt (ray_intersects_sphere (V3.ofR o1 o2 o3) (V3.ofR d1 d2 d3) s).1 t_max
            then (ray_intersects_sphere (V3.ofR o1 o2 o3) (V3.ofR d1 d2 d3) s).1 else acc.1))
        (if F.Lt t_min (ray_intersects_sphere (V3.ofR o1 o2 o3) (V3.ofR d1 d2 d3) s).2 ∧
            F.Lt (ray_intersects_sphere (V3.ofR o1 o2 o3) (V3.ofR d1 d2 d3) s).2 t_max
          then (ray_intersects_sphere (V3.ofR o1 o2 o3) (V3.ofR d1 d2 d3) s).2 else acc.1) := by
  refine ⟨⟨?_, ?_⟩, sphereStep_min _ _ _ _ _ _ hacc⟩
  · intro h
    simp only [sph_disc, sph_a, sph_b, sph_c] at h
    rw [ray_intersects_sphere_ofR]
    simp only []
    rw [if_pos h]
  · intro hd ha
    have h2a : 2 * (d1 * d1 + d2 * d2 + d3 * d3) ≠ 0 := by
      simp only [sph_a] at ha
      exact mul_ne_zero two_ne_zero ha
    have hd' : 0 ≤ 2 * ((o1 - c1) * d1 + (o2 - c2) * d2 + (o3 - c3) * d3) *
        (2 * ((o1 - c1) * d1 + (o2 - c2) * d2 + (o3 - c3) * d3)) -
        4 * (d1 * d1 + d2 * d2 + d3 * d3) *
          ((o1 - c1) * (o1 - c1) + (o2 - c2) * (o2 - c2) + (o3 - c3) * (o3 - c3) - r * r) := by
      simpa [sph_disc, sph_a, sph_b, sph_c] using hd
    constructor
    · simp only [sph_disc, sph_a, sph_b, sph_c]
      rw [ray_intersects_sphere_roots o1 o2 o3 d1 d2 d3 c1 c2 c3 r _ _ _ rfl rfl rfl hd',
        F.div_fin _ _ h2a, F.div_fin _ _ h2a]
    · intro t ht
      have hsd : Real.sqrt (sph_disc o1 o2 o3 d1 d2 d3 c1 c2 c3 r) *
          Real.sqrt (sph_disc o1 o2 o3 d1 d2 d3 c1 c2 c3 r) =
          sph_b o1 o2 o3 d1 d2 d3 c1 c2 c3 * sph_b o1 o2 o3 d1 d2 d3 c1 c2 c3 -
            4 * sph_a d1 d2 d3 * sph_c o1 o2 o3 c1 c2 c3 r := by
        rw [Real.mul_self_sqrt hd]
        rfl
      rcases ht with rfl | rfl
      · exact (quad_root_eval (sph_a d1 d2 d3) (sph_b o1 o2 o3 d1 d2 d3 c1 c2 c3)
          (sph_c o1 o2 o3 c1 c2 c3 r) _ ha hsd).1
      · exact (quad_root_eval (sph_a d1 d2 d3) (sph_b o1 o2 o3 d1 d2 d3 c1 c2 c3)
          (sph_c o1 o2 o3 c1 c2 c3 r) _ ha hsd).2

/-- Witness for C3: a concrete ray through a concrete sphere with
non-negative discriminant and non-zero leading coefficient. -/
theorem claim_C3_witness :
    ((0:ℝ) ≤ sph_disc 0 0 0 0 0 1 0 0 3 1) ∧ sph_a 0 0 1 ≠ 0 ∧
    ray_intersects_sphere (V3.ofR 0 0 0) (V3.ofR 0 0 1) ⟨V3.ofR 0 0 3, F.fin 1⟩ =
      (F.fin ((-sph_b 0 0 0 0 0 1 0 0 3 + Real.sqrt (sph_disc 0 0 0 0 0 1 0 0 3 1)) /
         (2 * sph_a 0 0 1)),
       F.fin ((-sph_b 0 0 0 0 0 1 0 0 3 - Real.sqrt (sph_disc 0 0 0 0 0 1 0 0 3 1)) /
         (2 * sph_a 0 0 1))) :=
  have h := claim_C3_sphere_quadratic 0 0 0 0 0 1 0 0 3 1 (F.fin 1) F.inf
    (F.inf, none) ⟨V3.ofR 0 0 3, F.fin 1⟩ (fun hh => F.noConfusion hh)
  ⟨by norm_num [sph_disc, sph_a, sph_b, sph_c], by norm_num [sph_a],
   (h.1.2 (by norm_num [sph_disc, sph_a, sph_b, sph_c]) (by norm_num [sph_a])).1⟩

theorem sum_mul_self_nonneg (x y z : ℝ) : 0 ≤ x * x + y * y + z * z := by
  nlinarith [mul_self_nonneg x, mul_self_nonneg y, mul_self_nonneg z]

theorem sum_mul_self_eq_zero_iff (x y z : ℝ) :
    x * x + y * y + z * z = 0 ↔ x = 0 ∧ y = 0 ∧ z = 0 := by
  constructor
  · intro h
    refine ⟨mul_self_eq_zero.mp ?_, mul_self_eq_zero.mp ?_, mul_self_eq_zero.mp ?_⟩ <;>
      nlinarith [mul_self_nonneg x, mul_self_nonneg y, mul_self_nonneg z]
  · rintro ⟨rfl, rfl, rfl⟩
    ring

set_option maxHeartbeats 1600000 in
/-- C5: For every ray and (finite, non-degenerate) triangle, the triangle
intersection reports no hit when `|d · n| < 1e-6` (in particular a ray
parallel to the triangle's plane, `d · (e1 × e2) = 0`, yields no hit
regardless of origin) or when the plane parameter `t` is below the
epsilon `1e-6`; otherwise it accepts the intersection point (returning it
with the unit plane normal) iff the edge-projected coordinates satisfy
`u ≥ 0`, `v ≥ 0` and `u + v ≤ 1`. -/
theorem claim_C5_triangle (o1 o2 o3 d1 d2 d3 a1 a2 a3 b1 b2 b3 g1 g2 g3
    cx cy cz SS nx ny nz den tval uu vv : ℝ)
    (hcx : cx = (b2 - a2) * (g3 - a3) - (b3 - a3) * (g2 - a2))
    (hcy : cy = (b3 - a3) * (g1 - a1) - (b1 - a1) * (g3 - a3))
    (hcz : cz = (b1 - a1) * (g2 - a2) - (b2 - a2) * (g1 - a1))
    (hSS : SS = cx * cx + cy * cy + cz * cz) (hS0 : SS ≠ 0)
    (hnx : nx = cx * (1 / Real.sqrt SS))
    (hny : ny = cy * (1 / Real.sqrt SS))
    (hnz : nz = cz * (1 / Real.sqrt SS))
    (hden : den = d1 * nx + d2 * ny + d3 * nz)
    (htv : tval = -(nx * o1 + ny * o2 + nz * o3 + -(nx * a1 + ny * a2 + nz * a3)) / den)
    (huu : uu = ((o1 + d1 * tval - a1) * (b1 - a1) + (o2 + d2 * tval - a2) * (b2 - a2) +
        (o3 + d3 * tval - a3) * (b3 - a3)) /
      ((b1 - a1) * (b1 - a1) + (b2 - a2) * (b2 - a2) + (b3 - a3) * (b3 - a3)))
    (hvv : vv = ((o1 + d1 * tval - a1) * (g1 - a1) + (o2 + d2 * tval - a2) * (g2 - a2) +
        (o3 + d3 * tval - a3) * (g3 - a3)) /
      ((g1 - a1) * (g1 - a1) + (g2 - a2) * (g2 - a2) + (g3 - a3) * (g3 - a3))) :
    (|den| < 1e-6 →
      ray_intersects_triangle (V3.ofR o1 o2 o3) (V3.ofR d1 d2 d3)
        ⟨V3.ofR a1 a2 a3, V3.ofR b1 b2 b3, V3.ofR g1 g2 g3⟩ = none) ∧
    (d1 * cx + d2 * cy + d3 * cz = 0 →
      ray_intersects_triangle (V3.ofR o1 o2 o3) (V3.ofR d1 d2 d3)
        ⟨V3.ofR a1 a2 a3, V3.ofR b1 b2 b3, V3.ofR g1 g2 g3⟩ = none) ∧
    (¬ |den| < 1e-6 → tval < 1e-6 →
      ray_intersects_triangle (V3.ofR o1 o2 o3) (V3.ofR d1 d2 d3)
        ⟨V3.ofR a1 a2 a3, V3.ofR b1 b2 b3, V3.ofR g1 g2 g3⟩ = none) ∧
    (¬ |den| < 1e-6 → ¬ tval < 1e-6 →
      ((0 ≤ uu ∧ 0 ≤ vv ∧ uu + vv ≤ 1 →
         ray_intersects_triangle (V3.ofR o1 o2 o3) (V3.ofR d1 d2 d3)
             ⟨V3.ofR a1 a2 a3, V3.ofR b1 b2 b3, V3.ofR g1 g2 g3⟩ =
           some (V3.ofR (o1 + d1 * tval) (o2 + d2 * tval) (o3 + d3 * tval),
             V3.ofR nx ny nz)) ∧
       (¬ (0 ≤ uu ∧ 0 ≤ vv ∧ uu + vv ≤ 1) →
         ray_intersects_triangle (V3.ofR o1 o2 o3) (V3.ofR d1 d2 d3)
             ⟨V3.ofR a1 a2 a3, V3.ofR b1 b2 b3, V3.ofR g1 g2 g3⟩ = none))) := by
  have hsum0 : (0:ℝ) ≤ cx * cx + cy * cy + cz * cz := by
    nlinarith [mul_self_nonneg cx, mul_self_nonneg cy, mul_self_nonneg cz]
  have hsumne : cx * cx + cy * cy + cz * cz ≠ 0 := by
    rw [← hSS]; exact hS0
  have hSpos : (0:ℝ) < cx * cx + cy * cy + cz * cz := lt_of_le_of_ne hsum0 (Ne.symm hsumne)
  have he1pos : (0:ℝ) < (b1 - a1) * (b1 - a1) + (b2 - a2) * (b2 - a2) +
      (b3 - a3) * (b3 - a3) := by
    rcases lt_or_eq_of_le (sum_mul_self_nonneg (b1 - a1) (b2 - a2) (b3 - a3)) with h | h
    · exact h
    · exfalso
      obtain ⟨hb1, hb2, hb3⟩ := (sum_mul_self_eq_zero_iff _ _ _).mp h.symm
      have hx0 : cx = 0 := by rw [hcx, hb2, hb3]; ring
      have hy0 : cy = 0 := by rw [hcy, hb1, hb3]; ring
      have hz0 : cz = 0 := by rw [hcz, hb1, hb2]; ring
      rw [hx0, hy0, hz0] at hSpos
      norm_num at hSpos
  have he2pos : (0:ℝ) < (g1 - a1) * (g1 - a1) + (g2 - a2) * (g2 - a2) +
      (g3 - a3) * (g3 - a3) := by
    rcases lt_or_eq_of_le (sum_mul_self_nonneg (g1 - a1) (g2 - a2) (g3 - a3)) with h | h
    · exact h
    · exfalso
      obtain ⟨hg1, hg2, hg3⟩ := (sum_mul_self_eq_zero_iff _ _ _).mp h.symm
      have hx0 : cx = 0 := by rw [hcx, hg2, hg3]; ring
      have hy0 : cy = 0 := by rw [hcy, hg1, hg3]; ring
      have hz0 : cz = 0 := by rw [hcz, hg1, hg2]; ring
      rw [hx0, hy0, hz0] at hSpos
      norm_num at hSpos
  have hred : ray_intersects_triangle (V3.ofR o1 o2 o3) (V3.ofR d1 d2 d3)
      ⟨V3.ofR a1 a2 a3, V3.ofR b1 b2 b3, V3.ofR g1 g2 g3⟩ =
      if |den| < 1e-6 then none
      else
        if F.Lt (F.div (F.fin (-(nx * o1 + ny * o2 + nz * o3 +
            -(nx * a1 + ny * a2 + nz * a3)))) (F.fin den)) (F.fin 1e-6) then none
        else
          let ip := V3.add (V3.ofR o1 o2 o3)
            (V3.smul (F.div (F.fin (-(nx * o1 + ny * o2 + nz * o3 +
              -(nx * a1 + ny * a2 + nz * a3)))) (F.fin den)) (V3.ofR d1 d2 d3))
          let q := V3.sub ip (V3.ofR a1 a2 a3)
          let u := F.div (V3.dot q (V3.ofR (b1 - a1) (b2 - a2) (b3 - a3)))
            (V3.length_squared (V3.ofR (b1 - a1) (b2 - a2) (b3 - a3)))
          let v := F.div (V3.dot q (V3.ofR (g1 - a1) (g2 - a2) (g3 - a3)))
            (V3.length_squared (V3.ofR (g1 - a1) (g2 - a2) (g3 - a3)))
          if F.Le (F.fin 0) u ∧ F.Le (F.fin 0) v ∧ F.Le (F.add u v) (F.fin 1) then
            some (ip, V3.ofR nx ny nz)
          else none := by
    unfold ray_intersects_triangle
    simp only [sub_ofR, cross_ofR]
    rw [← hcx, ← hcy, ← hcz, normalize_ofR cx cy cz hSpos, ← hSS, ← hnx, ← hny, ← hnz]
    simp only [dot_ofR, F.neg_fin, F.add_fin, F.abs_fin, F.lt_fin]
    rw [← hden]
  refine ⟨?_, ?_, ?_, ?_⟩
  · intro h1
    rw [hred, if_pos h1]
  · intro hpar
    have hd0 : den = 0 := by
      rw [hden, hnx, hny, hnz]
      linear_combination (1 / Real.sqrt SS) * hpar
    rw [hred, if_pos (by rw [hd0]; norm_num : |den| < (1e-6 : ℝ))]
  · intro h1 h3
    have hden0 : den ≠ 0 := by
      intro h
      exact h1 (by rw [h]; norm_num)
    rw [hred, if_neg h1, F.div_fin _ _ hden0, ← htv]
    rw [if_pos (show F.Lt (F.fin tval) (F.fin 1e-6) from h3)]
  · intro h1 h4
    have hden0 : den ≠ 0 := by
      intro h
      exact h1 (by rw [h]; norm_num)
    rw [hred, if_neg h1, F.div_fin _ _ hden0, ← htv,
      if_neg (show ¬ F.Lt (F.fin tval) (F.fin 1e-6) from h4)]
    simp only [smul_ofR, add_ofR, sub_ofR, dot_ofR, V3.length_squared, F.le_fin]
    rw [F.div_fin _ _ (ne_of_gt he1pos), F.div_fin _ _ (ne_of_gt he2pos), ← huu, ← hvv,
      F.add_fin]
    constructor
    · intro hacc
      rw [if_pos (show (F.fin 0).Le (F.fin uu) ∧ (F.fin 0).Le (F.fin vv) ∧
          (F.fin (uu + vv)).Le (F.fin 1) from ⟨hacc.1, hacc.2.1, hacc.2.2⟩)]
    · intro hrej
      rw [if_neg (show ¬ ((F.fin 0).Le (F.fin uu) ∧ (F.fin 0).Le (F.fin vv) ∧
          (F.fin (uu + vv)).Le (F.fin 1)) from fun h => hrej ⟨h.1, h.2.1, h.2.2⟩)]

/-- Witness for C5: a ray parallel to the plane of the program's fixed
triangle yields no hit. -/
theorem claim_C5_witness :
    ((2:ℝ) * 6 + 6 * (-2) + 0 * 9 = 0) ∧
    ray_intersects_triangle (V3.ofR 5 5 5) (V3.ofR 2 6 0)
      ⟨V3.ofR 0 (-1) 1, V3.ofR 3 (-1) (-1), V3.ofR 1 2 1⟩ = none := by
  have h11 : Real.sqrt 121 = 11 := by
    rw [show (121:ℝ) = 11 ^ 2 by norm_num]
    exact Real.sqrt_sq (by norm_num)
  refine ⟨by norm_num, (claim_C5_triangle 5 5 5 2 6 0 0 (-1) 1 3 (-1) (-1) 1 2 1
    6 (-2) 9 121 (6/11) (-2/11) (9/11) 0 0 (7/13) (23/10)
    (by norm_num) (by norm_num) (by norm_num) (by norm_num) (by norm_num)
    (by rw [h11]; norm_num) (by rw [h11]; norm_num) (by rw [h11]; norm_num)
    (by norm_num) (by norm_num [div_zero]) (by norm_num) (by norm_num)).2.1 (by norm_num)⟩

theorem zero_eq_ofR : V3.zero = V3.ofR 0 0 0 := rfl

/-- With a zero direction the sphere quadratic degenerates to `0 = 0`
with discriminant `0`, and both "roots" are the NaN `0/0`. -/
theorem sphere_zero_dir (o1 o2 o3 c1 c2 c3 r : ℝ) :
    ray_intersects_sphere (V3.ofR o1 o2 o3) V3.zero ⟨V3.ofR c1 c2 c3, F.fin r⟩ =
      (F.nan, F.nan) := by
  unfold ray_intersects_sphere
  rw [zero_eq_ofR]
  simp only [sub_ofR, dot_ofR]
  norm_num [F.Lt, F.sqrt, F.div, F.add, F.neg, F.sub, F.mul, Real.sqrt_zero]

/-- With a zero direction the fixed triangle's plane test rejects:
the denominator `d · n` is zero. -/
theorem triangle_zero_dir (o1 o2 o3 : ℝ) :
    ray_intersects_triangle (V3.ofR o1 o2 o3) V3.zero theTriangle = none := by
  unfold ray_intersects_triangle theTriangle
  simp only [sub_ofR, cross_ofR]
  norm_num
  rw [normalize_ofR 6 (-2) 9 (by norm_num), zero_eq_ofR, dot_ofR]
  norm_num [F.abs, F.Lt]

/-- A NaN-ignoring minimum or maximum of two infinities is an infinity. -/
theorem fmax_infty {x y : F} (hx : x = F.inf ∨ x = F.ninf) (hy : y = F.inf ∨ y = F.ninf) :
    F.fmax x y = F.inf ∨ F.fmax x y = F.ninf := by
  rcases hx with rfl | rfl <;> rcases hy with rfl | rfl <;> simp [F.fmax, F.Lt]

theorem fmin_infty {x y : F} (hx : x = F.inf ∨ x = F.ninf) (hy : y = F.inf ∨ y = F.ninf) :
    F.fmin x y = F.inf ∨ F.fmin x y = F.ninf := by
  rcases hx with rfl | rfl <;> rcases hy with rfl | rfl <;> simp [F.fmin, F.Lt]

theorem ite_infty (c : Prop) [Decidable c] :
    (if c then F.inf else F.ninf) = F.inf ∨ (if c then F.inf else F.ninf) = F.ninf := by
  split
  · exact Or.inl rfl
  · exact Or.inr rfl

theorem mul_zero_special {t : F} (ht : t = F.inf ∨ t = F.ninf) :
    F.mul (F.fin 0) t = F.nan := by
  rcases ht with rfl | rfl <;> simp [F.mul]

/-- One axis of the slab test under a zero direction component: the slab
bounds `a * inf` and `b * inf` (with `a < b`) combine into an infinity
determined by the signs of `a` and `b` (the NaN from a zero product is
ignored by Rust's min/max). -/
theorem axis_pair (a b : ℝ) (hab : a < b) :
    F.fmin (F.mul (F.fin a) F.inf) (F.mul (F.fin b) F.inf) =
      (if 0 ≤ a then F.inf else F.ninf) ∧
    F.fmax (F.mul (F.fin a) F.inf) (F.mul (F.fin b) F.inf) =
      (if 0 < b then F.inf else F.ninf) := by
  rcases lt_trichotomy a 0 with ha | ha | ha
  · rcases lt_trichotomy b 0 with hb | hb | hb
    · constructor
      · rw [if_neg (not_le.mpr ha)]
        simp [F.mul, ha, hb, asymm ha, asymm hb, F.fmin, F.Lt]
      · rw [if_neg (asymm hb)]
        simp [F.mul, ha, hb, asymm ha, asymm hb, F.fmax, F.Lt]
    · subst hb
      constructor
      · rw [if_neg (not_le.mpr ha)]
        simp [F.mul, ha, asymm ha, F.fmin, F.Lt]
      · rw [if_neg (lt_irrefl 0)]
        simp [F.mul, ha, asymm ha, F.fmax, F.Lt]
    · constructor
      · rw [if_neg (not_le.mpr ha)]
        simp [F.mul, ha, hb, asymm ha, F.fmin, F.Lt]
      · rw [if_pos hb]
        simp [F.mul, ha, hb, asymm ha, F.fmax, F.Lt]
  · subst ha
    have hb : 0 < b := hab
    constructor
    · rw [if_pos le_rfl]
      simp [F.mul, hb, F.fmin, F.Lt]
    · rw [if_pos hb]
      simp [F.mul, hb, F.fmax, F.Lt]
  · have hb : 0 < b := lt_trans ha hab
    constructor
    · rw [if_pos (le_of_lt ha)]
      simp [F.mul, ha, hb, F.fmin, F.Lt]
    · rw [if_pos hb]
      simp [F.mul, ha, hb, F.fmax, F.Lt]

theorem ofR_x (a b c : ℝ) : (V3.ofR a b c).x = F.fin a := rfl

theorem ofR_y (a b c : ℝ) : (V3.ofR a b c).y = F.fin b := rfl

theorem ofR_z (a b c : ℝ) : (V3.ofR a b c).z = F.fin c := rfl

theorem ninf_lt_fin (a : ℝ) : F.Lt F.ninf (F.fin a) := trivial

theorem fmin_ninf_right {x : F} (hx : x = F.inf ∨ x = F.ninf) :
    F.fmin x F.ninf = F.ninf := by
  rcases hx with rfl | rfl <;> simp [F.fmin, F.Lt]

theorem fmin_ninf_left {y : F} (hy : y = F.inf ∨ y = F.ninf) :
    F.fmin F.ninf y = F.ninf := by
  rcases hy with rfl | rfl <;> simp [F.fmin, F.Lt]

/-- With a zero ray direction, the slab test on the program's fixed cuboid
either rejects, or returns a degenerate hit record whose point is all-NaN
(`0 * ±inf`) and whose normal is the zero vector. -/
theorem cuboid_zero_dir (o1 o2 o3 : ℝ) :
    ray_intersects_cuboid_no_rotation (V3.ofR o1 o2 o3) V3.zero
        cuboid_position cuboid_half_extents = none ∨
    ray_intersects_cuboid_no_rotation (V3.ofR o1 o2 o3) V3.zero
        cuboid_position cuboid_half_extents =
      some (⟨F.nan, F.nan, F.nan⟩, V3.ofR 0 0 0) := by
  have hdiv : F.div (F.fin 1) (F.fin 0) = F.inf := by norm_num [F.div]
  unfold ray_intersects_cuboid_no_rotation
  rw [zero_eq_ofR]
  simp only [cuboid_position, cuboid_half_extents, ofR_x, ofR_y, ofR_z, hdiv, add_ofR,
    sub_ofR, V3.cmul, V3.vmin, V3.vmax, V3.max_element, V3.min_element]
  rw [(axis_pair (-1 - o1) (-1 + 1 - o1) (by linarith)).1,
    (axis_pair (-1 - o1) (-1 + 1 - o1) (by linarith)).2,
    (axis_pair (0 - o2) (0 + 1 - o2) (by linarith)).1,
    (axis_pair (0 - o2) (0 + 1 - o2) (by linarith)).2,
    (axis_pair (3 - o3) (3 + 1 - o3) (by linarith)).1,
    (axis_pair (3 - o3) (3 + 1 - o3) (by linarith)).2]
  by_cases hx : (0:ℝ) < -1 + 1 - o1
  · by_cases hy : (0:ℝ) < 0 + 1 - o2
    · by_cases hz : (0:ℝ) < 3 + 1 - o3
      · rw [if_pos hx, if_pos hy, if_pos hz]
        have hexit : F.fmin F.inf (F.fmin F.inf F.inf) = F.inf := by simp [F.fmin, F.Lt]
        rw [hexit, if_neg (fun h => h.elim (F.not_inf_lt _) (F.not_inf_lt _))]
        refine Or.inr ?_
        have ht : F.fmax (if (0:ℝ) ≤ -1 - o1 then F.inf else F.ninf)
            (F.fmax (if (0:ℝ) ≤ 0 - o2 then F.inf else F.ninf)
              (if (0:ℝ) ≤ 3 - o3 then F.inf else F.ninf)) = F.inf ∨
            F.fmax (if (0:ℝ) ≤ -1 - o1 then F.inf else F.ninf)
            (F.fmax (if (0:ℝ) ≤ 0 - o2 then F.inf else F.ninf)
              (if (0:ℝ) ≤ 3 - o3 then F.inf else F.ninf)) = F.ninf :=
          fmax_infty (ite_infty _) (fmax_infty (ite_infty _) (ite_infty _))
        have hsm : V3.smul (F.fmax (if (0:ℝ) ≤ -1 - o1 then F.inf else F.ninf)
            (F.fmax (if (0:ℝ) ≤ 0 - o2 then F.inf else F.ninf)
              (if (0:ℝ) ≤ 3 - o3 then F.inf else F.ninf))) (V3.ofR 0 0 0) =
            ⟨F.nan, F.nan, F.nan⟩ := by
          show V3.mk _ _ _ = _
          simp only [ofR_x, ofR_y, ofR_z]
          rw [mul_zero_special ht]
        rw [hsm]
        have hip : V3.add (V3.ofR o1 o2 o3) (⟨F.nan, F.nan, F.nan⟩ : V3) =
            ⟨F.nan, F.nan, F.nan⟩ := by
          simp [V3.add, V3.ofR, F.add]
        rw [hip]
        have hnrm : compute_cuboid_normal (⟨F.nan, F.nan, F.nan⟩ : V3)
            (V3.ofR (-1) 0 3) (V3.ofR 1 1 1) = V3.ofR 0 0 0 := by
          simp [compute_cuboid_normal, V3.sub, V3.ofR, F.sub, F.add, F.neg, F.abs, F.Lt]
        rw [hnrm]
      · rw [if_neg hz, fmin_ninf_right (ite_infty _), fmin_ninf_right (ite_infty _),
          if_pos (Or.inl (ninf_lt_fin 0))]
        exact Or.inl rfl
    · rw [if_pos hx, if_neg hy, fmin_ninf_left (ite_infty _),
        fmin_ninf_right (Or.inl rfl),
        if_pos (Or.inl (ninf_lt_fin 0))]
      exact Or.inl rfl
  · rw [if_neg hx, fmin_ninf_left (fmin_infty (ite_infty _) (ite_infty _)),
      if_pos (Or.inl (ninf_lt_fin 0))]
    exact Or.inl rfl

/-- With a zero direction the cuboid block of `trace_ray` never shades:
either the slab test rejects, or the degenerate all-NaN hit point fails
the NaN-poisoned distance comparison. -/
theorem cuboidTail_zero (o1 o2 o3 : ℝ) :
    cuboidTail (V3.ofR o1 o2 o3) V3.zero (F.inf, none) = ' ' := by
  unfold cuboidTail
  rcases cuboid_zero_dir o1 o2 o3 with h | h
  · rw [h]
    rfl
  · rw [h]
    have hlen : V3.length (⟨F.nan, F.nan, F.nan⟩ : V3) = F.nan := by
      simp [V3.length, V3.length_squared, V3.dot, F.mul, F.add, F.sqrt]
    show (if F.Lt (V3.length ⟨F.nan, F.nan, F.nan⟩) F.inf then _ else _) = ' '
    rw [hlen, if_neg (F.not_nan_lt F.inf)]
    rfl

/-- With a zero direction no sphere in the list ever updates the closest
parameter: both roots are NaN and fail every comparison. -/
theorem fold_zero_dir (o1 o2 o3 : ℝ) (ps : List (ℝ × ℝ × ℝ × ℝ)) :
    (spheresOfR ps).foldl (sphereStep (V3.ofR o1 o2 o3) V3.zero (F.fin 1) F.inf)
      (F.inf, none) = (F.inf, none) := by
  induction ps with
  | nil => rfl
  | cons q l ih =>
      simp only [spheresOfR, List.map_cons, List.foldl_cons]
      have hstep : sphereStep (V3.ofR o1 o2 o3) V3.zero (F.fin 1) F.inf (F.inf, none)
          ⟨V3.ofR q.1 q.2.1 q.2.2.1, F.fin q.2.2.2⟩ = (F.inf, none) := by
        unfold sphereStep
        rw [sphere_zero_dir]
        simp [F.Lt]
      rw [hstep]
      exact ih

theorem isFin_exists {v : V3} (h : v.IsFin) : ∃ a b c : ℝ, v = V3.ofR a b c := by
  obtain ⟨x, y, z⟩ := v
  obtain ⟨hx, hy, hz⟩ := h
  cases x <;> cases y <;> cases z <;> simp_all [F.IsFin, V3.ofR]

theorem fin_of_lt_lt {a : ℝ} {t : F} (h1 : F.Lt (F.fin a) t) (h2 : F.Lt t F.inf) :
    ∃ x : ℝ, t = F.fin x := by
  cases t <;> simp_all [F.Lt]

/-- The length of a vector with a non-finite component is NaN or `+inf`,
so it fails every `<` comparison. -/
theorem length_not_fin (v : V3) (h : ¬ v.IsFin) :
    V3.length v = F.nan ∨ V3.length v = F.inf := by
  obtain ⟨x, y, z⟩ := v
  cases x <;> cases y <;> cases z <;>
    simp_all [V3.IsFin, F.IsFin, V3.length, V3.length_squared, V3.dot, F.mul, F.add, F.sqrt]

/-- Dividing a finite vector by its own length gives either a finite
vector or (for the zero vector) the all-NaN vector. -/
theorem sdiv_length_cases (a b c : ℝ) :
    (∃ x y z : ℝ, V3.sdiv (V3.ofR a b c) (V3.length (V3.ofR a b c)) = V3.ofR x y z) ∨
    V3.sdiv (V3.ofR a b c) (V3.length (V3.ofR a b c)) = ⟨F.nan, F.nan, F.nan⟩ := by
  rw [length_ofR]
  by_cases h : a * a + b * b + c * c = 0
  · right
    obtain ⟨ha, hb, hc⟩ := (sum_mul_self_eq_zero_iff a b c).mp h
    subst ha hb hc
    norm_num [V3.sdiv, V3.ofR, F.div, Real.sqrt_zero]
  · left
    have hpos : 0 < a * a + b * b + c * c :=
      lt_of_le_of_ne (sum_mul_self_nonneg a b c) (Ne.symm h)
    have hs : Real.sqrt (a * a + b * b + c * c) ≠ 0 :=
      ne_of_gt (Real.sqrt_pos.mpr hpos)
    exact ⟨a / Real.sqrt (a * a + b * b + c * c), b / Real.sqrt (a * a + b * b + c * c),
      c / Real.sqrt (a * a + b * b + c * c), by simp [V3.sdiv, V3.ofR, F.div_fin _ _ hs]⟩

/-- Normalising a finite vector gives either a finite vector or (for the
zero vector) the all-NaN vector. -/
theorem normalize_cases (a b c : ℝ) :
    (∃ x y z : ℝ, V3.normalize (V3.ofR a b c) = V3.ofR x y z) ∨
    V3.normalize (V3.ofR a b c) = ⟨F.nan, F.nan, F.nan⟩ := by
  by_cases h : a * a + b * b + c * c = 0
  · right
    obtain ⟨ha, hb, hc⟩ := (sum_mul_self_eq_zero_iff a b c).mp h
    subst ha hb hc
    unfold V3.normalize
    rw [length_ofR]
    norm_num [V3.smul, V3.ofR, F.div, F.mul, Real.sqrt_zero]
  · left
    have hpos : 0 < a * a + b * b + c * c :=
      lt_of_le_of_ne (sum_mul_self_nonneg a b c) (Ne.symm h)
    exact ⟨_, _, _, normalize_ofR a b c hpos⟩

/-- Shading with the all-NaN normal takes the ambient-only branch. -/
theorem lightingIntensity_nanN (p l : V3) :
    lightingIntensity p (⟨F.nan, F.nan, F.nan⟩ : V3) l = F.fin 0.2 := by
  unfold lightingIntensity
  simp [V3.dot, F.mul, F.add, F.Lt]

/-- The shaded character is always in the palette when the hit point and
light are finite and the normal is finite or all-NaN. -/
theorem compute_lighting_mem (p1 p2 p3 l1 l2 l3 : ℝ) (n : V3)
    (hn : (∃ n1 n2 n3 : ℝ, n = V3.ofR n1 n2 n3) ∨ n = ⟨F.nan, F.nan, F.nan⟩) :
    compute_lighting (V3.ofR p1 p2 p3) n (V3.ofR l1 l2 l3) ∈ scaleChars := by
  rcases hn with ⟨n1, n2, n3, rfl⟩ | rfl
  · obtain ⟨i, hi, h1, h2⟩ := lightingIntensity_ofR p1 p2 p3 n1 n2 n3 l1 l2 l3
    have hidx : lightingIndex (V3.ofR p1 p2 p3) (V3.ofR n1 n2 n3) (V3.ofR l1 l2 l3) ≤ 13 := by
      unfold lightingIndex
      rw [hi]
      exact toUsize_mul14_le i h1 h2
    exact scale_getD_mem _ hidx
  · have hidx : lightingIndex (V3.ofR p1 p2 p3) (⟨F.nan, F.nan, F.nan⟩ : V3)
        (V3.ofR l1 l2 l3) ≤ 13 := by
      unfold lightingIndex
      rw [lightingIntensity_nanN]
      exact toUsize_mul14_le 0.2 (le_refl _) (by norm_num)
    exact scale_getD_mem _ hidx

/-- The cuboid routine either rejects or returns a point paired with the
normal computed from that point. -/
theorem cuboid_result_split (o d p h : V3) :
    ray_intersects_cuboid_no_rotation o d p h = none ∨
    ∃ pt, ray_intersects_cuboid_no_rotation o d p h =
      some (pt, compute_cuboid_normal pt p h) := by
  unfold ray_intersects_cuboid_no_rotation
  simp only []
  split
  · exact Or.inl rfl
  · exact Or.inr ⟨_, rfl⟩

theorem ite_signum_fin (c : Prop) [Decidable c] (a : ℝ) :
    ∃ x : ℝ, (if c then F.signum (F.fin a) else F.fin 0) = F.fin x := by
  by_cases hc : c
  · rw [if_pos hc]
    by_cases ha : a < 0
    · exact ⟨-1, by simp [F.signum, ha]⟩
    · exact ⟨1, by simp [F.signum, ha]⟩
  · exact ⟨0, if_neg hc⟩

/-- The cuboid surface normal at a finite point is a finite vector
(each component is `0` or `±1`). -/
theorem cuboid_normal_fin (p1 p2 p3 a1 a2 a3 h1 h2 h3 : ℝ) :
    ∃ n1 n2 n3 : ℝ, compute_cuboid_normal (V3.ofR p1 p2 p3) (V3.ofR a1 a2 a3)
      (V3.ofR h1 h2 h3) = V3.ofR n1 n2 n3 := by
  unfold compute_cuboid_normal
  simp only [sub_ofR, ofR_x, ofR_y, ofR_z, F.abs_fin, F.add_fin]
  obtain ⟨x1, hx1⟩ := ite_signum_fin (F.Lt (F.fin h1) (F.fin (|p1 - a1| + 1e-6))) (p1 - a1)
  obtain ⟨x2, hx2⟩ := ite_signum_fin (F.Lt (F.fin h2) (F.fin (|p2 - a2| + 1e-6))) (p2 - a2)
  obtain ⟨x3, hx3⟩ := ite_signum_fin (F.Lt (F.fin h3) (F.fin (|p3 - a3| + 1e-6))) (p3 - a3)
  refine ⟨x1, x2, x3, ?_⟩
  rw [hx1, hx2, hx3]
  rfl

/-- On finite inputs the triangle routine returns no hit or a finite hit
record. -/
theorem triangle_result_cases (o1 o2 o3 d1 d2 d3 a1 a2 a3 b1 b2 b3 c1 c2 c3 : ℝ) :
    ray_intersects_triangle (V3.ofR o1 o2 o3) (V3.ofR d1 d2 d3)
      ⟨V3.ofR a1 a2 a3, V3.ofR b1 b2 b3, V3.ofR c1 c2 c3⟩ = none ∨
    ∃ p1 p2 p3 n1 n2 n3 : ℝ,
      ray_intersects_triangle (V3.ofR o1 o2 o3) (V3.ofR d1 d2 d3)
        ⟨V3.ofR a1 a2 a3, V3.ofR b1 b2 b3, V3.ofR c1 c2 c3⟩ =
        some (V3.ofR p1 p2 p3, V3.ofR n1 n2 n3) := by
  unfold ray_intersects_triangle
  simp only [sub_ofR, cross_ofR]
  rcases normalize_cases ((b2 - a2) * (c3 - a3) - (b3 - a3) * (c2 - a2))
      ((b3 - a3) * (c1 - a1) - (b1 - a1) * (c3 - a3))
      ((b1 - a1) * (c2 - a2) - (b2 - a2) * (c1 - a1)) with hnn | hnn
  · obtain ⟨x, y, z, hn⟩ := hnn
    rw [hn]
    simp only [dot_ofR, F.neg_fin, F.add_fin, F.abs_fin, F.lt_fin]
    by_cases hc1 : |d1 * x + d2 * y + d3 * z| < 1e-6
    · rw [if_pos hc1]
      exact Or.inl rfl
    · rw [if_neg hc1]
      have hd : d1 * x + d2 * y + d3 * z ≠ 0 := by
        intro h0
        exact hc1 (by rw [h0]; norm_num)
      rw [F.div_fin _ _ hd]
      simp only [F.lt_fin]
      by_cases hc2 : -(x * o1 + y * o2 + z * o3 + -(x * a1 + y * a2 + z * a3)) /
          (d1 * x + d2 * y + d3 * z) < 1e-6
      · rw [if_pos hc2]
        exact Or.inl rfl
      · rw [if_neg hc2]
        simp only [smul_ofR, add_ofR, sub_ofR, V3.length_squared, dot_ofR]
        split
        · exact Or.inr ⟨_, _, _, _, _, _, rfl⟩
        · exact Or.inl rfl
  · rw [hnn]
    left
    simp [V3.dot, V3.smul, V3.add, V3.sub, V3.ofR, V3.length_squared,
      F.mul, F.add, F.sub, F.neg, F.div, F.abs, F.Lt, F.Le]

/-- Every sphere built by `spheresOfR` has exact-real data. -/
theorem spheresOfR_mem {ps : List (ℝ × ℝ × ℝ × ℝ)} {s : Sphere}
    (h : s ∈ spheresOfR ps) :
    ∃ a b c r : ℝ, s = ⟨V3.ofR a b c, F.fin r⟩ := by
  obtain ⟨q, _, rfl⟩ := List.mem_map.mp h
  exact ⟨q.1, q.2.1, q.2.2.1, q.2.2.2, rfl⟩

/-- One sphere-loop iteration either keeps the accumulator or records the
current sphere together with a root that passed `t_min < t < t_max`, which
forces the root to be finite. -/
theorem sphereStep_cases (o d : V3) (acc : F × Option Sphere) (s : Sphere) :
    sphereStep o d (F.fin 1) F.inf acc s = acc ∨
    ∃ t : ℝ, sphereStep o d (F.fin 1) F.inf acc s = (F.fin t, some s) := by
  unfold sphereStep
  simp only []
  by_cases hc1 : F.Lt (F.fin 1) (ray_intersects_sphere o d s).1 ∧
      F.Lt (ray_intersects_sphere o d s).1 F.inf ∧
      F.Lt (ray_intersects_sphere o d s).1 acc.1
  · rw [if_pos hc1]
    split
    · rename_i hc2
      obtain ⟨t, ht⟩ := fin_of_lt_lt hc2.1 hc2.2.1
      exact Or.inr ⟨t, by rw [ht]⟩
    · obtain ⟨t, ht⟩ := fin_of_lt_lt hc1.1 hc1.2.1
      exact Or.inr ⟨t, by rw [ht]⟩
  · rw [if_neg hc1]
    split
    · rename_i hc2
      obtain ⟨t, ht⟩ := fin_of_lt_lt hc2.1 hc2.2.1
      exact Or.inr ⟨t, by rw [ht]⟩
    · exact Or.inl rfl

/-- The sphere loop either returns its initial accumulator unchanged or a
finite closest parameter paired with a sphere from the list. -/
theorem sphereFold_cases (o d : V3) (l : List Sphere) (acc : F × Option Sphere) :
    l.foldl (sphereStep o d (F.fin 1) F.inf) acc = acc ∨
    ∃ t s, s ∈ l ∧ l.foldl (sphereStep o d (F.fin 1) F.inf) acc = (F.fin t, some s) := by
  induction l generalizing acc with
  | nil => exact Or.inl rfl
  | cons a as ih =>
    rw [List.foldl_cons]
    rcases sphereStep_cases o d acc a with h | ⟨t, h⟩
    · rw [h]
      rcases ih acc with h2 | ⟨t2, s, hs, h2⟩
      · exact Or.inl h2
      · exact Or.inr ⟨t2, s, List.mem_cons_of_mem a hs, h2⟩
    · rw [h]
      rcases ih (F.fin t, some a) with h2 | ⟨t2, s, hs, h2⟩
      · exact Or.inr ⟨t, a, List.mem_cons_self a as, h2⟩
      · exact Or.inr ⟨t2, s, List.mem_cons_of_mem a hs, h2⟩

/-- The final sphere-shading block yields a space or a palette character
on every reachable accumulator. -/
theorem sphereTail_mem (o1 o2 o3 d1 d2 d3 : ℝ) (acc : F × Option Sphere)
    (hacc : AccOk acc) :
    sphereTail (V3.ofR o1 o2 o3) (V3.ofR d1 d2 d3) acc = ' ' ∨
    sphereTail (V3.ofR o1 o2 o3) (V3.ofR d1 d2 d3) acc ∈ scaleChars := by
  rcases hacc with rfl | ⟨t, a, b, c, r, rfl⟩
  · exact Or.inl rfl
  · right
    have hred : sphereTail (V3.ofR o1 o2 o3) (V3.ofR d1 d2 d3)
        (F.fin t, some ⟨V3.ofR a b c, F.fin r⟩) =
        compute_lighting
          (V3.add (V3.ofR o1 o2 o3) (V3.smul (F.fin t) (V3.ofR d1 d2 d3)))
          (V3.sdiv
            (V3.sub (V3.add (V3.ofR o1 o2 o3) (V3.smul (F.fin t) (V3.ofR d1 d2 d3)))
              (V3.ofR a b c))
            (V3.length
              (V3.sub (V3.add (V3.ofR o1 o2 o3) (V3.smul (F.fin t) (V3.ofR d1 d2 d3)))
                (V3.ofR a b c))))
          (V3.ofR o1 o2 o3) := rfl
    rw [hred, smul_ofR, add_ofR, sub_ofR]
    rcases sdiv_length_cases (o1 + d1 * t - a) (o2 + d2 * t - b) (o3 + d3 * t - c) with
      ⟨x, y, z, hs⟩ | hs
    · rw [hs]
      exact compute_lighting_mem _ _ _ _ _ _ _ (Or.inl ⟨x, y, z, rfl⟩)
    · rw [hs]
      exact compute_lighting_mem _ _ _ _ _ _ _ (Or.inr rfl)

/-- The cuboid block yields a space or a palette character on every
reachable accumulator. -/
theorem cuboidTail_mem (o1 o2 o3 d1 d2 d3 : ℝ) (acc : F × Option Sphere)
    (hacc : AccOk acc) :
    cuboidTail (V3.ofR o1 o2 o3) (V3.ofR d1 d2 d3) acc = ' ' ∨
    cuboidTail (V3.ofR o1 o2 o3) (V3.ofR d1 d2 d3) acc ∈ scaleChars := by
  unfold cuboidTail cuboid_position cuboid_half_extents
  rcases cuboid_result_split (V3.ofR o1 o2 o3) (V3.ofR d1 d2 d3)
      (V3.ofR (-1) 0 3) (V3.ofR 1 1 1) with h | ⟨pt, h⟩
  · simp only [h]
    exact sphereTail_mem o1 o2 o3 d1 d2 d3 acc hacc
  · simp only [h]
    by_cases hfin : pt.IsFin
    · obtain ⟨p1, p2, p3, rfl⟩ := isFin_exists hfin
      obtain ⟨n1, n2, n3, hn⟩ := cuboid_normal_fin p1 p2 p3 (-1) 0 3 1 1 1
      rw [hn]
      by_cases hlt : F.Lt (V3.length (V3.ofR p1 p2 p3)) acc.1
      · rw [if_pos hlt]
        right
        rcases sdiv_length_cases n1 n2 n3 with ⟨x, y, z, hs⟩ | hs
        · rw [hs]
          exact compute_lighting_mem _ _ _ _ _ _ _ (Or.inl ⟨x, y, z, rfl⟩)
        · rw [hs]
          exact compute_lighting_mem _ _ _ _ _ _ _ (Or.inr rfl)
      · rw [if_neg hlt]
        exact sphereTail_mem o1 o2 o3 d1 d2 d3 acc hacc
    · have hcond : ¬ F.Lt (V3.length pt) acc.1 := by
        rcases length_not_fin pt hfin with h2 | h2
        · rw [h2]
          exact F.not_nan_lt acc.1
        · rw [h2]
          exact F.not_inf_lt acc.1
      rw [if_neg hcond]
      exact sphereTail_mem o1 o2 o3 d1 d2 d3 acc hacc

/-- On every exact-real ray and scene, the traced character is the space
character or one of the 14 palette characters. -/
theorem trace_char_mem (o1 o2 o3 d1 d2 d3 : ℝ) (ps : List (ℝ × ℝ × ℝ × ℝ)) :
    trace_ray (V3.ofR o1 o2 o3) (V3.ofR d1 d2 d3) (F.fin 1) F.inf (spheresOfR ps) = ' ' ∨
    trace_ray (V3.ofR o1 o2 o3) (V3.ofR d1 d2 d3) (F.fin 1) F.inf (spheresOfR ps) ∈
      scaleChars := by
  have haccok : AccOk ((spheresOfR ps).foldl
      (sphereStep (V3.ofR o1 o2 o3) (V3.ofR d1 d2 d3) (F.fin 1) F.inf) (F.inf, none)) := by
    rcases sphereFold_cases (V3.ofR o1 o2 o3) (V3.ofR d1 d2 d3) (spheresOfR ps)
        (F.inf, none) with h | ⟨t, s, hs, h⟩
    · exact Or.inl h
    · obtain ⟨a, b, c, r, rfl⟩ := spheresOfR_mem hs
      exact Or.inr ⟨t, a, b, c, r, h⟩
  unfold trace_ray
  simp only []
  have htri := triangle_result_cases o1 o2 o3 d1 d2 d3 0 (-1) 1 3 (-1) (-1) 1 2 1
  rw [show (⟨V3.ofR 0 (-1) 1, V3.ofR 3 (-1) (-1), V3.ofR 1 2 1⟩ : TriangleT) = theTriangle
    from rfl] at htri
  rcases htri with hnone | ⟨p1, p2, p3, n1, n2, n3, hsome⟩
  · simp only [hnone]
    exact cuboidTail_mem o1 o2 o3 d1 d2 d3 _ haccok
  · simp only [hsome]
    by_cases hlt : F.Lt (V3.length (V3.ofR p1 p2 p3)) ((spheresOfR ps).foldl
        (sphereStep (V3.ofR o1 o2 o3) (V3.ofR d1 d2 d3) (F.fin 1) F.inf) (F.inf, none)).1
    · rw [if_pos hlt]
      right
      rcases normalize_cases n1 n2 n3 with ⟨x, y, z, hn⟩ | hn
      · rw [hn]
        exact compute_lighting_mem _ _ _ _ _ _ _ (Or.inl ⟨x, y, z, rfl⟩)
      · rw [hn]
        exact compute_lighting_mem _ _ _ _ _ _ _ (Or.inr rfl)
    · rw [if_neg hlt]
      exact cuboidTail_mem o1 o2 o3 d1 d2 d3 _ haccok

/-- The pixel-to-viewport vector of an exact-real camera is exact-real:
`x`/`y` are scaled by viewport over column/row counts, `z` is `D = 1`. -/
theorem cpvd_ofR (px py pz a b c d e f g h i vw vh : ℝ) (buf : List Char) (X Y : ℝ) :
    camera_pixel_to_viewport_distance
        (mkCam px py pz a b c d e f g h i ⟨F.fin vw, F.fin vh⟩ buf) (F.fin X) (F.fin Y) =
      V3.ofR (X * vw / 240) (Y * vh / 67) 1 := by
  unfold camera_pixel_to_viewport_distance mkCam D
  simp only [F.mul_fin]
  rw [show ((COLS : ℕ) : ℝ) = 240 by norm_num [COLS, WIDTH],
    show ((ROWS : ℕ) : ℝ) = 67 by norm_num [ROWS, HEIGHT],
    F.div_fin _ _ (by norm_num), F.div_fin _ _ (by norm_num)]
  rfl

/-- Each rendered pixel of an exact-real camera and scene is the space
character or a palette character. -/
theorem renderPixel_char_mem (px py pz a b c d e f g h i vw vh : ℝ) (buf : List Char)
    (ps : List (ℝ × ℝ × ℝ × ℝ)) (n : ℕ) :
    renderPixel (mkCam px py pz a b c d e f g h i ⟨F.fin vw, F.fin vh⟩ buf)
        (spheresOfR ps) n = ' ' ∨
    renderPixel (mkCam px py pz a b c d e f g h i ⟨F.fin vw, F.fin vh⟩ buf)
        (spheresOfR ps) n ∈ scaleChars := by
  unfold renderPixel
  simp only []
  rw [show (mkCam px py pz a b c d e f g h i ⟨F.fin vw, F.fin vh⟩ buf).position =
        V3.ofR px py pz from rfl,
    show (mkCam px py pz a b c d e f g h i ⟨F.fin vw, F.fin vh⟩ buf).rotation =
        M3.ofR a b c d e f g h i from rfl,
    cpvd_ofR, mulVec_ofR]
  exact trace_char_mem px py pz _ _ _ ps

/-- C9 (counterexample): with the zero direction and origin
`(-1.5, 0.5, 3.5)`, the cuboid routine does NOT report "no hit": it
returns a degenerate hit record whose point is all-NaN and whose normal
is the zero vector (inside each slab `0 * inf = NaN` and Rust's
NaN-ignoring min/max turn the bounds into infinities that pass the
rejection test). -/
theorem claim_C9_counterexample :
    ray_intersects_cuboid_no_rotation (V3.ofR (-(3/2)) (1/2) (7/2)) V3.zero
        cuboid_position cuboid_half_extents =
      some (⟨F.nan, F.nan, F.nan⟩, V3.ofR 0 0 0) ∧
    ¬ ray_intersects_cuboid_no_rotation (V3.ofR (-(3/2)) (1/2) (7/2)) V3.zero
        cuboid_position cuboid_half_extents = none := by
  have h : ray_intersects_cuboid_no_rotation (V3.ofR (-(3/2)) (1/2) (7/2)) V3.zero
      cuboid_position cuboid_half_extents =
      some (⟨F.nan, F.nan, F.nan⟩, V3.ofR 0 0 0) := by
    unfold ray_intersects_cuboid_no_rotation compute_cuboid_normal
    rw [zero_eq_ofR]
    norm_num [cuboid_position, cuboid_half_extents, V3.ofR, V3.sub, V3.add, V3.cmul,
      V3.vmin, V3.vmax, V3.max_element, V3.min_element, V3.smul, F.div, F.mul, F.sub,
      F.add, F.neg, F.abs, F.fmin, F.fmax, F.Lt]
  exact ⟨h, by rw [h]; exact fun hh => Option.noConfusion hh⟩

/-- C9 (amended): for every finite origin and finite sphere list, a ray
with the zero direction vector produces the space character from the full
trace pipeline, the sphere routine returns the NaN pair (which fails
every range check, hence no valid hit), and the triangle routine reports
no hit; the cuboid routine, however, may return a degenerate NaN hit
record (see the counterexample), which the pipeline's distance comparison
rejects. -/
theorem claim_C9_zero_direction (o1 o2 o3 : ℝ) (ps : List (ℝ × ℝ × ℝ × ℝ)) :
    trace_ray (V3.ofR o1 o2 o3) V3.zero (F.fin 1) F.inf (spheresOfR ps) = ' ' ∧
    (∀ c1 c2 c3 r : ℝ,
      ray_intersects_sphere (V3.ofR o1 o2 o3) V3.zero ⟨V3.ofR c1 c2 c3, F.fin r⟩ =
        (F.nan, F.nan)) ∧
    ray_intersects_triangle (V3.ofR o1 o2 o3) V3.zero theTriangle = none := by
  refine ⟨?_, fun c1 c2 c3 r => sphere_zero_dir o1 o2 o3 c1 c2 c3 r,
    triangle_zero_dir o1 o2 o3⟩
  unfold trace_ray
  rw [fold_zero_dir, triangle_zero_dir]
  exact cuboidTail_zero o1 o2 o3

/-- C4 (failing input): the ray from `(0,0,-5)` along `+Z` is
perpendicular to the `-Z` face of the cuboid with center `(0,0,0)` and
half-extents `(1,1,1)` and passes through that face's exact center
`(0,0,-1)`, yet `ray_intersects_cuboid_no_rotation` reports NO hit: its
slab test treats `position` as the minimum corner (slabs at `position`
and `position + half_extents`), while `compute_cuboid_normal` in the same
routine treats `position` as the center — the second conjunct shows the
normal routine does return the outward unit normal `(0,0,-1)` at the
claimed hit point, confirming the centered convention is the intent. -/
theorem claim_C4_cuboid_bug :
    ray_intersects_cuboid_no_rotation (V3.ofR 0 0 (-5)) (V3.ofR 0 0 1)
      (V3.ofR 0 0 0) (V3.ofR 1 1 1) = none ∧
    compute_cuboid_normal (V3.ofR 0 0 (-1)) (V3.ofR 0 0 0) (V3.ofR 1 1 1) =
      V3.ofR 0 0 (-1) := by
  constructor
  · unfold ray_intersects_cuboid_no_rotation
    norm_num [V3.ofR, V3.sub, V3.add, V3.cmul, V3.vmin, V3.vmax, V3.max_element,
      V3.min_element, F.div, F.mul, F.sub, F.add, F.neg, F.fmin, F.fmax, F.Lt]
  · unfold compute_cuboid_normal
    norm_num [V3.ofR, V3.sub, F.sub, F.add, F.neg, F.abs, F.signum, F.Lt]

/-- C6: For a ray whose origin is at distance `D > radius` from the
sphere's center and whose direction is a positive multiple of the vector
to the center, the near root is `(D - r) / (s*D)`, the far root is
`(D + r) / (s*D)`, the Euclidean travel to the near hit is exactly
`D - radius`, and the near root is indeed no larger than the far one. -/
theorem claim_C6_ray_at_center (o1 o2 o3 c1 c2 c3 r DD s : ℝ) (hr : 0 < r) (hD : r < DD)
    (hs : 0 < s)
    (hdist : (c1 - o1) * (c1 - o1) + (c2 - o2) * (c2 - o2) + (c3 - o3) * (c3 - o3) = DD * DD) :
    ray_intersects_sphere (V3.ofR o1 o2 o3)
        (V3.ofR (s * (c1 - o1)) (s * (c2 - o2)) (s * (c3 - o3)))
        ⟨V3.ofR c1 c2 c3, F.fin r⟩ =
      (F.fin ((DD + r) / (s * DD)), F.fin ((DD - r) / (s * DD))) ∧
    V3.length (V3.smul (F.fin ((DD - r) / (s * DD)))
        (V3.ofR (s * (c1 - o1)) (s * (c2 - o2)) (s * (c3 - o3)))) = F.fin (DD - r) ∧
    (DD - r) / (s * DD) ≤ (DD + r) / (s * DD) := by
  have hD0 : 0 < DD := lt_trans hr hD
  have hsD : (0 : ℝ) < s * DD := by positivity
  refine ⟨?_, ?_, ?_⟩
  · have hid : 2 * (-(s * (DD * DD))) * (2 * (-(s * (DD * DD)))) -
        4 * (s * s * (DD * DD)) * (DD * DD - r * r) = 2 * s * DD * r * (2 * s * DD * r) := by
      ring
    rw [ray_intersects_sphere_roots o1 o2 o3 _ _ _ c1 c2 c3 r
      (-(s * (DD * DD))) (s * s * (DD * DD)) (DD * DD)
      (by linear_combination s * hdist) (by linear_combination (-(s * s)) * hdist)
      (by linear_combination (-1 : ℝ) * hdist) (by rw [hid]; positivity)]
    rw [hid, Real.sqrt_mul_self (by positivity)]
    have hden : 2 * (s * s * (DD * DD)) ≠ 0 := by positivity
    rw [F.div_fin _ _ hden, F.div_fin _ _ hden, Prod.mk.injEq]
    refine ⟨?_, ?_⟩ <;> (congr 1; field_simp; ring)
  · rw [smul_ofR, length_ofR]
    have hin : s * (c1 - o1) * ((DD - r) / (s * DD)) * (s * (c1 - o1) * ((DD - r) / (s * DD))) +
        s * (c2 - o2) * ((DD - r) / (s * DD)) * (s * (c2 - o2) * ((DD - r) / (s * DD))) +
        s * (c3 - o3) * ((DD - r) / (s * DD)) * (s * (c3 - o3) * ((DD - r) / (s * DD))) =
        (DD - r) * (DD - r) := by
      have expand : s * (c1 - o1) * ((DD - r) / (s * DD)) * (s * (c1 - o1) * ((DD - r) / (s * DD))) +
          s * (c2 - o2) * ((DD - r) / (s * DD)) * (s * (c2 - o2) * ((DD - r) / (s * DD))) +
          s * (c3 - o3) * ((DD - r) / (s * DD)) * (s * (c3 - o3) * ((DD - r) / (s * DD))) =
          ((DD - r) / (s * DD)) * ((DD - r) / (s * DD)) * (s * s) *
            ((c1 - o1) * (c1 - o1) + (c2 - o2) * (c2 - o2) + (c3 - o3) * (c3 - o3)) := by
        ring
      rw [expand, hdist]
      field_simp
      ring
    rw [hin, Real.sqrt_mul_self (by linarith)]
  · gcongr <;> linarith

/-- Witness for C6: the spec's own example, a unit sphere at `(0,0,3)`
seen from the origin; the near root is `2/3` of the direction vector away
and the travel distance is `3 - 1 = 2`. -/
theorem claim_C6_witness :
    ((0:ℝ) < 1 ∧ (1:ℝ) < 3 ∧ (0:ℝ) < 1 ∧
      ((3:ℝ) - 0) * (3 - 0) = 3 * 3) ∧
    (ray_intersects_sphere (V3.ofR 0 0 0)
        (V3.ofR (1 * ((0:ℝ) - 0)) (1 * ((0:ℝ) - 0)) (1 * ((3:ℝ) - 0)))
        ⟨V3.ofR 0 0 3, F.fin 1⟩ =
      (F.fin (((3:ℝ) + 1) / (1 * 3)), F.fin (((3:ℝ) - 1) / (1 * 3))) ∧
    V3.length (V3.smul (F.fin (((3:ℝ) - 1) / (1 * 3)))
        (V3.ofR (1 * ((0:ℝ) - 0)) (1 * ((0:ℝ) - 0)) (1 * ((3:ℝ) - 0)))) = F.fin ((3:ℝ) - 1) ∧
    ((3:ℝ) - 1) / (1 * 3) ≤ ((3:ℝ) + 1) / (1 * 3)) :=
  ⟨⟨by norm_num, by norm_num, by norm_num, by norm_num⟩,
   by
    have h := claim_C6_ray_at_center 0 0 0 0 0 3 1 3 1 (by norm_num) (by norm_num)
      (by norm_num) (by norm_num)
    simpa using h⟩

/-- C2: For every (finite) hit point, surface normal and light position,
the shading intensity is a finite value within `[0.2, 1.0]` (in fact
within `[0.2, 0.8]`), the palette index stays within `[0, 13]`, and the
shaded character is an element of the 14-character palette. -/
theorem claim_C2_lighting_bounds (p1 p2 p3 n1 n2 n3 l1 l2 l3 : ℝ) :
    (∃ i : ℝ,
      lightingIntensity (V3.ofR p1 p2 p3) (V3.ofR n1 n2 n3) (V3.ofR l1 l2 l3) = F.fin i ∧
        0.2 ≤ i ∧ i ≤ 1) ∧
    lightingIndex (V3.ofR p1 p2 p3) (V3.ofR n1 n2 n3) (V3.ofR l1 l2 l3) ≤ 13 ∧
    compute_lighting (V3.ofR p1 p2 p3) (V3.ofR n1 n2 n3) (V3.ofR l1 l2 l3) ∈ scaleChars := by
  obtain ⟨i, hi, h1, h2⟩ := lightingIntensity_ofR p1 p2 p3 n1 n2 n3 l1 l2 l3
  have hidx : lightingIndex (V3.ofR p1 p2 p3) (V3.ofR n1 n2 n3) (V3.ofR l1 l2 l3) ≤ 13 := by
    unfold lightingIndex
    rw [hi]
    exact toUsize_mul14_le i h1 h2
  exact ⟨⟨i, hi, h1, by linarith⟩, hidx, scale_getD_mem _ hidx⟩

/-- C8: Rendering the full frame by a data-parallel map over all pixel
indices with results collected in original order produces a buffer
identical to sequential row-major iteration, for every fixed camera state
and scene. -/
theorem claim_C8_parallel_eq_sequential (camera : Camera) (spheres : List Sphere) :
    renderBuffer camera spheres = seqRenderSpec camera spheres := by
  unfold renderBuffer seqRenderSpec
  rw [range_mul_flatten ROWS COLS, List.map_flatten, List.map_map]
  refine congrArg List.flatten ?_
  refine List.map_congr_left ?_
  intro r hr
  rw [Function.comp_apply, List.map_map]
  refine List.map_congr_left ?_
  intro c hc
  rw [Function.comp_apply]
  unfold renderPixel
  have hcc : (c : ℤ) < (COLS : ℤ) := by
    exact_mod_cast List.mem_range.mp hc
  have hc0 : (0 : ℤ) ≤ (c : ℤ) := Int.ofNat_nonneg c
  have hi : ((r * COLS + c : ℕ) : ℤ) = (r : ℤ) * (COLS : ℤ) + (c : ℤ) := by push_cast; ring
  have e240 : (COLS : ℤ) = 240 := by norm_num [COLS, WIDTH]
  have hx : ((r * COLS + c : ℕ) : ℤ) % (COLS : ℤ) = (c : ℤ) := by
    rw [hi, e240]; rw [e240] at hcc; omega
  have hy : ((r * COLS + c : ℕ) : ℤ) / (COLS : ℤ) = (r : ℤ) := by
    rw [hi, e240]; rw [e240] at hcc; omega
  rw [hx, hy]

/-- C10: after an update tick, the render loop leaves a buffer with exactly
`ROWS * COLS = 67 * 240` entries; the character for pixel offset `(x, y)`
is stored at flat index `(y + ROWS/2) * COLS + (x + COLS/2)` and equals the
ray traced through that pixel; and every entry is the space character or
one of the 14 palette characters. -/
theorem claim_C10_buffer_invariants (px py pz a b c d e f g h i vw vh : ℝ)
    (buf : List Char) (ps : List (ℝ × ℝ × ℝ × ℝ)) (x y : ℤ)
    (hx1 : -((COLS : ℤ) / 2) ≤ x) (hx2 : x < (COLS : ℤ) - (COLS : ℤ) / 2)
    (hy1 : -((ROWS : ℤ) / 2) ≤ y) (hy2 : y < (ROWS : ℤ) - (ROWS : ℤ) / 2) :
    (renderBuffer (mkCam px py pz a b c d e f g h i ⟨F.fin vw, F.fin vh⟩ buf)
        (spheresOfR ps)).length = ROWS * COLS ∧
    ROWS * COLS = 67 * 240 ∧
    (renderBuffer (mkCam px py pz a b c d e f g h i ⟨F.fin vw, F.fin vh⟩ buf)
        (spheresOfR ps))[((y + (ROWS : ℤ) / 2) * (COLS : ℤ) +
          (x + (COLS : ℤ) / 2)).toNat]? =
      some (trace_ray
        (mkCam px py pz a b c d e f g h i ⟨F.fin vw, F.fin vh⟩ buf).position
        (M3.mulVec (mkCam px py pz a b c d e f g h i ⟨F.fin vw, F.fin vh⟩ buf).rotation
          (camera_pixel_to_viewport_distance
            (mkCam px py pz a b c d e f g h i ⟨F.fin vw, F.fin vh⟩ buf)
            (F.fin (x : ℝ)) (F.fin (y : ℝ))))
        (F.fin 1) F.inf (spheresOfR ps)) ∧
    ∀ ch ∈ renderBuffer (mkCam px py pz a b c d e f g h i ⟨F.fin vw, F.fin vh⟩ buf)
        (spheresOfR ps), ch = ' ' ∨ ch ∈ scaleChars := by
  have e240 : (COLS : ℤ) = 240 := by norm_num [COLS, WIDTH]
  have e67 : (ROWS : ℤ) = 67 := by norm_num [ROWS, HEIGHT]
  refine ⟨?_, by norm_num [ROWS, COLS, WIDTH, HEIGHT], ?_, ?_⟩
  · unfold renderBuffer
    rw [List.length_map, List.length_range]
  · have hx1' : (-120 : ℤ) ≤ x := by rw [e240] at hx1; omega
    have hx2' : x < 120 := by rw [e240] at hx2; omega
    have hy1' : (-33 : ℤ) ≤ y := by rw [e67] at hy1; omega
    have hy2' : y < 34 := by rw [e67] at hy2; omega
    rw [e240, e67, show ((67 : ℤ) / 2 : ℤ) = 33 by decide,
      show ((240 : ℤ) / 2 : ℤ) = 120 by decide]
    have hRC : ROWS * COLS = 16080 := by norm_num [ROWS, COLS, WIDTH, HEIGHT]
    have hlt : ((y + 33) * 240 + (x + 120)).toNat < ROWS * COLS := by
      rw [hRC]; omega
    unfold renderBuffer
    rw [List.getElem?_map, List.getElem?_range hlt, Option.map_some']
    congr 1
    unfold renderPixel
    simp only []
    have hn : ((((y + 33) * 240 + (x + 120)).toNat : ℕ) : ℤ) =
        (y + 33) * 240 + (x + 120) := by omega
    rw [e240, e67, hn, show ((240 : ℤ) / 2 : ℤ) = 120 by decide,
      show ((67 : ℤ) / 2 : ℤ) = 33 by decide]
    rw [show ((y + 33) * 240 + (x + 120)) % 240 - 120 = x by omega,
      show ((y + 33) * 240 + (x + 120)) / 240 - 33 = y by omega]
  · intro ch hch
    unfold renderBuffer at hch
    obtain ⟨m, _, rfl⟩ := List.mem_map.mp hch
    exact renderPixel_char_mem px py pz a b c d e f g h i vw vh buf ps m

/-- C10 (witness): the invariants instantiated at the identity camera, an
empty scene and the central pixel `(0, 0)`. -/
theorem claim_C10_witness :
    (-((COLS : ℤ) / 2) ≤ (0 : ℤ)) ∧ ((0 : ℤ) < (COLS : ℤ) - (COLS : ℤ) / 2) ∧
    (-((ROWS : ℤ) / 2) ≤ (0 : ℤ)) ∧ ((0 : ℤ) < (ROWS : ℤ) - (ROWS : ℤ) / 2) ∧
    (renderBuffer (mkCam 0 0 0 1 0 0 0 1 0 0 0 1 ⟨F.fin 1, F.fin 1⟩ [])
        (spheresOfR [])).length = ROWS * COLS :=
  ⟨by decide, by decide, by decide, by decide,
    (claim_C10_buffer_invariants 0 0 0 1 0 0 0 1 0 0 0 1 1 1 [] [] 0 0
      (by decide) (by decide) (by decide) (by decide)).1⟩

/-! Concrete evaluations for the claim-C1 counterexample ray: origin at the
world origin, direction `(2, 1, 2)` (length 3), one sphere with center
`(17/4, 17/8, 17/4)` and radius 3. -/

theorem c1_sphere_eval :
    ray_intersects_sphere (V3.ofR 0 0 0) (V3.ofR 2 1 2)
        ⟨V3.ofR (17/4) (17/8) (17/4), F.fin 3⟩ =
      (F.fin (25/8), F.fin (9/8)) := by
  have hs : Real.sqrt (2 * (-(153/8) : ℝ) * (2 * -(153/8)) - 4 * 9 * (2601/64 - 3 * 3)) =
      18 := by
    rw [show (2 * (-(153/8) : ℝ) * (2 * -(153/8)) - 4 * 9 * (2601/64 - 3 * 3)) = 18 ^ 2 by
      norm_num, Real.sqrt_sq (by norm_num : (0:ℝ) ≤ 18)]
  rw [ray_intersects_sphere_roots 0 0 0 2 1 2 (17/4) (17/8) (17/4) 3 (-(153/8)) 9 (2601/64)
    (by norm_num) (by norm_num) (by norm_num) (by norm_num), hs]
  norm_num [F.div, Prod.mk.injEq]

theorem c1_cuboid_eval :
    ray_intersects_cuboid_no_rotation (V3.ofR 0 0 0) (V3.ofR 2 1 2)
      cuboid_position cuboid_half_extents = none := by
  unfold ray_intersects_cuboid_no_rotation cuboid_position cuboid_half_extents
  norm_num [V3.ofR, V3.sub, V3.add, V3.cmul, V3.vmin, V3.vmax, V3.max_element,
    V3.min_element, V3.smul, F.div, F.mul, F.sub, F.add, F.neg, F.abs, F.fmin,
    F.fmax, F.Lt]

theorem c1_fold_eval :
    [(⟨V3.ofR (17/4) (17/8) (17/4), F.fin 3⟩ : Sphere)].foldl
      (sphereStep (V3.ofR 0 0 0) (V3.ofR 2 1 2) (F.fin 1) F.inf) (F.inf, none) =
      (F.fin (9/8), some ⟨V3.ofR (17/4) (17/8) (17/4), F.fin 3⟩) := by
  rw [List.foldl_cons, List.foldl_nil]
  unfold sphereStep
  simp only []
  rw [c1_sphere_eval]
  norm_num [F.Lt, Prod.mk.injEq]

theorem c1_tri_eval :
    ray_intersects_triangle (V3.ofR 0 0 0) (V3.ofR 2 1 2) theTriangle =
      some (V3.ofR (11/14) (11/28) (11/14), V3.ofR (6/11) (-(2/11)) (9/11)) := by
  have s121 : Real.sqrt ((6:ℝ) * 6 + -2 * -2 + 9 * 9) = 11 := by
    rw [show ((6:ℝ) * 6 + -2 * -2 + 9 * 9) = 11 ^ 2 by norm_num,
      Real.sqrt_sq (by norm_num : (0:ℝ) ≤ 11)]
  unfold ray_intersects_triangle theTriangle
  simp only [sub_ofR, cross_ofR]
  rw [show ((-1 : ℝ) - -1) * (1 - 1) - (-1 - 1) * (2 - -1) = 6 by norm_num,
    show ((-1 : ℝ) - 1) * (1 - 0) - (3 - 0) * (1 - 1) = -2 by norm_num,
    show ((3 : ℝ) - 0) * (2 - -1) - (-1 - -1) * (1 - 0) = 9 by norm_num,
    normalize_ofR 6 (-2) 9 (by norm_num), s121]
  norm_num [V3.smul, V3.add, V3.sub, V3.dot, V3.length_squared, V3.ofR, F.mul, F.add,
    F.sub, F.div, F.neg, F.abs, F.Lt, F.Le, Prod.mk.injEq, V3.mk.injEq, F.fin.injEq]
  intro h
  rw [abs_of_nonneg (by norm_num : (0:ℝ) ≤ 28/11)] at h
  norm_num at h

theorem c1_cuboidTail_eval :
    cuboidTail (V3.ofR 0 0 0) (V3.ofR 2 1 2)
      (F.fin (9/8), some ⟨V3.ofR (17/4) (17/8) (17/4), F.fin 3⟩) = '$' := by
  have s9 : Real.sqrt (9:ℝ) = 3 := by
    rw [show (9:ℝ) = 3 ^ 2 by norm_num, Real.sqrt_sq (by norm_num : (0:ℝ) ≤ 3)]
  have s729 : Real.sqrt ((729:ℝ)/64) = 27/8 := by
    rw [show ((729:ℝ)/64) = (27/8) ^ 2 by norm_num,
      Real.sqrt_sq (by norm_num : (0:ℝ) ≤ 27/8)]
  unfold cuboidTail
  rw [c1_cuboid_eval]
  norm_num [sphereTail, compute_lighting, lightingIndex, lightingIntensity, scaleChars,
    F.toUsize, V3.length, V3.length_squared, V3.dot, V3.smul, V3.add, V3.sub, V3.sdiv,
    V3.ofR, F.mul, F.add, F.sub, F.div, F.neg, F.sqrt, F.Lt, s9, s729, Real.sqrt_one]
  decide

theorem c1_code_char :
    trace_ray (V3.ofR 0 0 0) (V3.ofR 2 1 2) (F.fin 1) F.inf
      [⟨V3.ofR (17/4) (17/8) (17/4), F.fin 3⟩] = '$' := by
  have s1089 : Real.sqrt ((1089:ℝ)/784) = 33/28 := by
    rw [show ((1089:ℝ)/784) = (33/28) ^ 2 by norm_num,
      Real.sqrt_sq (by norm_num : (0:ℝ) ≤ 33/28)]
  unfold trace_ray
  simp only []
  rw [c1_fold_eval, c1_tri_eval]
  show (if F.Lt (V3.length (V3.ofR (11/14) (11/28) (11/14))) (F.fin (9/8))
      then compute_lighting (V3.ofR (11/14) (11/28) (11/14))
        (V3.normalize (V3.ofR (6/11) (-(2/11)) (9/11))) (V3.ofR 0 0 0)
      else cuboidTail (V3.ofR 0 0 0) (V3.ofR 2 1 2)
        (F.fin (9/8), some ⟨V3.ofR (17/4) (17/8) (17/4), F.fin 3⟩)) = '$'
  rw [length_ofR,
    show ((11:ℝ)/14 * (11/14) + 11/28 * (11/28) + 11/14 * (11/14)) = 1089/784 by norm_num,
    s1089,
    if_neg (show ¬ F.Lt (F.fin ((33:ℝ)/28)) (F.fin (9/8)) from by norm_num [F.Lt])]
  exact c1_cuboidTail_eval

theorem c1_spec_char :
    specSelectChar (V3.ofR 0 0 0) (V3.ofR 2 1 2) (F.fin 1) F.inf
      [⟨V3.ofR (17/4) (17/8) (17/4), F.fin 3⟩] = ':' := by
  have s9 : Real.sqrt (9:ℝ) = 3 := by
    rw [show (9:ℝ) = 3 ^ 2 by norm_num, Real.sqrt_sq (by norm_num : (0:ℝ) ≤ 3)]
  have s729 : Real.sqrt ((729:ℝ)/64) = 27/8 := by
    rw [show ((729:ℝ)/64) = (27/8) ^ 2 by norm_num,
      Real.sqrt_sq (by norm_num : (0:ℝ) ≤ 27/8)]
  have s5625 : Real.sqrt ((5625:ℝ)/64) = 75/8 := by
    rw [show ((5625:ℝ)/64) = (75/8) ^ 2 by norm_num,
      Real.sqrt_sq (by norm_num : (0:ℝ) ≤ 75/8)]
  have s1089 : Real.sqrt ((1089:ℝ)/784) = 33/28 := by
    rw [show ((1089:ℝ)/784) = (33/28) ^ 2 by norm_num,
      Real.sqrt_sq (by norm_num : (0:ℝ) ≤ 33/28)]
  unfold specSelectChar specCandidates
  rw [c1_tri_eval, c1_cuboid_eval]
  simp only [List.flatMap_cons, List.flatMap_nil]
  rw [c1_sphere_eval]
  norm_num [sphereHitRecord, compute_lighting, lightingIndex, lightingIntensity,
    scaleChars, F.toUsize, V3.length, V3.length_squared, V3.dot, V3.smul, V3.add,
    V3.sub, V3.sdiv, V3.normalize, V3.ofR, F.mul, F.add, F.sub, F.div, F.neg, F.sqrt,
    F.Lt, s9, s729, s5625, s1089, Real.sqrt_one, List.foldl_cons, List.foldl_nil]
  decide

/-- C1 (counterexample): the renderer does NOT select the globally closest
valid hit by Euclidean distance from the ray origin.  For the ray from the
world origin along `(2, 1, 2)` against one sphere (center
`(17/4, 17/8, 17/4)`, radius 3), the code returns the sphere's shaded
character `'$'` (the sphere wins because its raw parameter `t = 9/8` beats
the triangle's hit-point length `33/28`), while the spec's rule — compare
each candidate hit point's Euclidean distance from the ray origin — picks
the triangle (distance `33/28` versus the sphere's `27/8`) and returns its
shaded character `':'`. -/
theorem claim_C1_counterexample :
    trace_ray (V3.ofR 0 0 0) (V3.ofR 2 1 2) (F.fin 1) F.inf
        [⟨V3.ofR (17/4) (17/8) (17/4), F.fin 3⟩] = '$' ∧
    specSelectChar (V3.ofR 0 0 0) (V3.ofR 2 1 2) (F.fin 1) F.inf
        [⟨V3.ofR (17/4) (17/8) (17/4), F.fin 3⟩] = ':' ∧
    ('$' : Char) ≠ ':' :=
  ⟨c1_code_char, c1_spec_char, by decide⟩

/-- C1 (amended): for EVERY ray, range and sphere list, the renderer's
output equals the amended mixed-metric selection rule `amendedSelectChar`:
the sphere stage is the minimum of the RAW parameters `t` over the
flattened candidate list (both roots of every sphere, range-checked); the
triangle hit is accepted iff its hit point's Euclidean length (distance
from the WORLD origin) beats that winning raw parameter, with
unconditional priority over the cuboid; the cuboid hit is accepted under
the same test; otherwise the sphere winner (or a space) is produced.  The
second conjunct spells out the sphere-stage equivalence. -/
theorem claim_C1_amended_selection (o d : V3) (t_min t_max : F) (spheres : List Sphere) :
    trace_ray o d t_min t_max spheres = amendedSelectChar o d t_min t_max spheres ∧
    spheres.foldl (sphereStep o d t_min t_max) (F.inf, none) =
      (sphereCandTs o d spheres).foldl (candStep t_min t_max) (F.inf, none) := by
  have key : ∀ (l : List Sphere) (acc : F × Option Sphere),
      l.foldl (sphereStep o d t_min t_max) acc =
      (sphereCandTs o d l).foldl (candStep t_min t_max) acc := by
    intro l
    induction l with
    | nil => intro acc; rfl
    | cons a as ih =>
      intro acc
      rw [List.foldl_cons]
      unfold sphereCandTs
      rw [List.flatMap_cons, List.foldl_append, List.foldl_cons, List.foldl_cons,
        List.foldl_nil]
      rw [ih (sphereStep o d t_min t_max acc a)]
      rfl
  refine ⟨?_, key spheres (F.inf, none)⟩
  unfold trace_ray amendedSelectChar
  simp only []
  rw [key spheres (F.inf, none)]
  rfl

end Cast

end
